import Mathlib

/-!
Verification development for the Tailwind utility-class analysis engines of
the `oxlint-tailwind` plugin: token extraction, pairwise conflict detection,
canonical rewriting, fix application, and the LSP bridge framing layer.

Strings from the TypeScript source are modelled as `List Char` (`Str`).
Each JavaScript regular expression used by the source is embedded as an
executable matcher whose backtracking behaviour (greedy quantifiers,
left-first alternation, word boundaries) is reproduced deterministically;
comments on each matcher record the regex it implements.
-/

set_option maxRecDepth 100000

namespace Oxtw

/-- Str models a JavaScript string as a list of characters. -/
abbrev Str := List Char

/-- Convert a Lean string literal to the `Str` model. -/
def lit (s : String) : Str := s.toList

/-- Lowercase ASCII letter, the `[a-z]` character class. -/
def isLowerAlpha (c : Char) : Bool := 'a' ≤ c && c ≤ 'z'

/-- ASCII digit, the `\d` / `[0-9]` character class. -/
def isDigitCh (c : Char) : Bool := '0' ≤ c && c ≤ '9'

/-- JavaScript regex word character `\w` = `[A-Za-z0-9_]`. -/
def isWordCh (c : Char) : Bool :=
  isLowerAlpha c || ('A' ≤ c && c ≤ 'Z') || isDigitCh c || c == '_'

/-- Character class `[a-z0-9-]` (the value part of extracted class tokens). -/
def isValCh (c : Char) : Bool := isLowerAlpha c || isDigitCh c || c == '-'

/-- Character class `[a-z-]`. -/
def isAzDash (c : Char) : Bool := isLowerAlpha c || c == '-'

/-- Word-boundary test for the position after a match: `\b` holds at the end
of input or before a non-word character (the previous character of every use
site below is a word character). -/
def boundaryAfter (c? : Option Char) : Bool :=
  match c? with
  | none => true
  | some c => !isWordCh c

/-! ## Token extractor (`TailwindValidator.extractClasses`)

The source scans the input with the global regex

  `/\b([a-z]+(?::[a-z]+)*-[a-z0-9-]+|\b[a-z]+-[a-z0-9-]+\b|[a-z]+\b)/g`

and de-duplicates the matches with a `Set`. The three alternatives are
embedded below as `matchAlt1`, `matchAlt2`, `matchAlt3`; each returns the
number of characters consumed at the current position, or `none`. -/

/-- Length consumed by the greedy `(?::[a-z]+)*` group: repeatedly a colon
followed by at least one lowercase letter. Dropping iterations during
backtracking can never help the following `-` to match (the next character
would be `:`), so the greedy count is exact. Each iteration consumes at
least two characters, so fuel equal to the string length suffices. -/
def colonGroupsLen : Nat → Str → Nat
  | 0, _ => 0
  | fuel + 1, ':' :: rest =>
    let ls := rest.takeWhile isLowerAlpha
    if ls.isEmpty then 0
    else (1 + ls.length) + colonGroupsLen fuel (rest.drop ls.length)
  | _ + 1, _ => 0

/-- First alternative `[a-z]+(?::[a-z]+)*-[a-z0-9-]+`. All quantifiers
resolve greedily: shortening `[a-z]+` puts a letter where `:` or `-` is
required, and shortening the final `[a-z0-9-]+` is never demanded. -/
def matchAlt1 (s : Str) : Option Nat :=
  let ls := s.takeWhile isLowerAlpha
  if ls.isEmpty then none
  else
    let g := colonGroupsLen s.length (s.drop ls.length)
    match s.drop (ls.length + g) with
    | '-' :: rest =>
      let vs := rest.takeWhile isValCh
      if vs.isEmpty then none else some (ls.length + g + 1 + vs.length)
    | _ => none

/-- Backtracking loop for the trailing `\b` of the second alternative: try
value lengths from the greedy maximum down to 1 until the next character is
a boundary. `base` is the length of the `[a-z]+-` part already consumed. -/
def alt2Shrink (s : Str) (base : Nat) : Nat → Option Nat
  | 0 => none
  | k + 1 =>
    if boundaryAfter (s.get? (base + k + 1)) then some (base + k + 1)
    else alt2Shrink s base k

/-- Second alternative `\b[a-z]+-[a-z0-9-]+\b` (the leading `\b` is checked
by the caller). It is subsumed by the first alternative and therefore never
selected, but is embedded for faithfulness. -/
def matchAlt2 (s : Str) : Option Nat :=
  let ls := s.takeWhile isLowerAlpha
  if ls.isEmpty then none
  else
    match s.drop ls.length with
    | '-' :: rest =>
      let vs := rest.takeWhile isValCh
      alt2Shrink s (ls.length + 1) vs.length
    | _ => none

/-- Third alternative `[a-z]+\b`. Shortening the greedy `[a-z]+` leaves a
letter (a word character) as the next character, so only the greedy length
can satisfy the boundary. -/
def matchAlt3 (s : Str) : Option Nat :=
  let ls := s.takeWhile isLowerAlpha
  if ls.isEmpty then none
  else if boundaryAfter (s.get? ls.length) then some ls.length
  else none

/-- Attempt the whole class pattern at the current position. `prevWord`
records whether the preceding character is a word character; the leading
`\b` fails when it is (every alternative starts with a word character). -/
def matchClassAt (prevWord : Bool) (s : Str) : Option Nat :=
  if prevWord then none
  else matchAlt1 s <|> matchAlt2 s <|> matchAlt3 s

/-- Whether the last character of the first `n` characters of `s` is a word
character (state carried across a successful match). -/
def lastIsWord (s : Str) (n : Nat) : Bool :=
  match s.get? (n - 1) with
  | some c => isWordCh c
  | none => false

/-- Scan of `String.match(classPattern)` with the `g` flag: find successive
leftmost matches, collecting each and resuming after it. Every match
consumes at least one character, so fuel `s.length` suffices. -/
def scanTokens : Nat → Bool → Str → List Str
  | 0, _, _ => []
  | _, _, [] => []
  | fuel + 1, prevWord, s@(c :: rest) =>
    match matchClassAt prevWord s with
    | some n => s.take n :: scanTokens fuel (lastIsWord s n) (s.drop n)
    | none => scanTokens fuel (isWordCh c) rest

/-- Order-preserving de-duplication, keeping the first occurrence — the
semantics of `[...new Set(matches)]`. -/
def dedupFirst : List Str → List Str :=
  go []
where
  go (seen : List Str) : List Str → List Str
    | [] => []
    | x :: xs => if x ∈ seen then go seen xs else x :: go (x :: seen) xs

/-- TailwindValidator.extractClasses: regex scan plus de-duplication. -/
def extractClasses (input : Str) : List Str :=
  dedupFirst (scanTokens input.length false input)

/-! ## Conflict detector (`ConflictDetector`, pattern-based sync path) -/

/-- ClassConflict record from `conflict-detector.ts`. -/
structure ClassConflict where
  classes : List Str
  reason : Str
  fixable : Bool
  suggestedFix : Option Str
deriving DecidableEq, Repr

/-- Direction letters `(t|b|l|r|x|y)` of the spacing pattern. -/
def isDirCh (c : Char) : Bool :=
  c == 't' || c == 'b' || c == 'l' || c == 'r' || c == 'x' || c == 'y'

/-- Anchored spacing pattern `^(m|p)(t|b|l|r|x|y)?-\d+$`, returning the
captured type and optional direction. The optional direction group is
deterministic: when the second character is a direction letter it must be
consumed (otherwise `-` cannot match). -/
def spacingParse (s : Str) : Option (Char × Option Char) :=
  match s with
  | t :: rest =>
    if t == 'm' || t == 'p' then
      let (dir?, rest2) :=
        match rest with
        | d :: r2 => if isDirCh d then (some d, r2) else (none, rest)
        | [] => (none, rest)
      match rest2 with
      | '-' :: ds =>
        if !ds.isEmpty && ds.all isDigitCh then some (t, dir?) else none
      | _ => none
    else none
  | [] => none

/-- Suggested fix text `Keep only one: ${class1} or ${class2}`. -/
def keepOnlyFix (c1 c2 : Str) : Str :=
  lit "Keep only one: " ++ c1 ++ lit " or " ++ c2

/-- ConflictDetector.checkSpacingConflict. -/
def checkSpacingConflict (c1 c2 : Str) : Option ClassConflict :=
  match spacingParse c1, spacingParse c2 with
  | some (t1, d1), some (t2, d2) =>
    if t1 == t2 && d1 == d2 then
      some { classes := [c1, c2]
             reason := lit "Conflicting " ++
               (if t1 == 'm' then lit "margin" else lit "padding") ++
               lit " values for same direction"
             fixable := true
             suggestedFix := some (keepOnlyFix c1 c2) }
    else none
  | _, _ => none

/-- Str starts with the given literal. -/
def startsWithS (s : Str) (p : String) : Bool := p.toList.isPrefixOf s

/-- Unanchored-right/left test of `^(w|h)-\d+|(w|h)-(auto|full|screen)$`:
the first alternative is anchored only at the start (at least one digit
after `w-`/`h-`), the second only at the end (a suffix match). -/
def sizingTest (s : Str) : Bool :=
  (match s with
   | c :: '-' :: d :: _ => (c == 'w' || c == 'h') && isDigitCh d
   | _ => false)
  || [ "w-auto", "w-full", "w-screen", "h-auto", "h-full", "h-screen"
     ].any (fun t => t.toList.isSuffixOf s)

/-- The `type1`/`type2` computation of checkSizingConflict
(`class1.startsWith('w-') ? 'w' : class1.startsWith('h-') ? 'h' : null`). -/
def sizingAxis (s : Str) : Option Char :=
  if startsWithS s "w-" then some 'w'
  else if startsWithS s "h-" then some 'h'
  else none

/-- ConflictDetector.checkSizingConflict. -/
def checkSizingConflict (c1 c2 : Str) : Option ClassConflict :=
  if sizingTest c1 && sizingTest c2 then
    match sizingAxis c1, sizingAxis c2 with
    | some a1, some a2 =>
      if a1 == a2 then
        some { classes := [c1, c2]
               reason := lit "Conflicting " ++
                 (if a1 == 'w' then lit "width" else lit "height") ++
                 lit " values"
               fixable := true
               suggestedFix := some (keepOnlyFix c1 c2) }
      else none
    | _, _ => none
  else none

/-- Size suffixes of `^(text)-(xs|sm|base|lg|xl|2xl|...|9xl)$`. -/
def sizeSuffixes : List String :=
  ["xs", "sm", "base", "lg", "xl", "2xl", "3xl", "4xl", "5xl", "6xl",
   "7xl", "8xl", "9xl"]

/-- The `isSize` predicate of checkTypographyConflict: the anchored
alternation is exactly membership in the finite token list. -/
def isSizeTok (s : Str) : Bool :=
  sizeSuffixes.any (fun t => s == lit ("text-" ++ t))

/-- Palette names of the text-color regex. -/
def colorNames : List String :=
  ["transparent", "current", "black", "white", "slate", "gray", "zinc",
   "neutral", "stone", "red", "orange", "amber", "yellow", "lime", "green",
   "emerald", "teal", "cyan", "sky", "blue", "indigo", "violet", "purple",
   "fuchsia", "pink", "rose"]

/-- Shade values of the text-color regex. -/
def shadeNames : List String :=
  ["50", "100", "200", "300", "400", "500", "600", "700", "800", "900",
   "950"]

/-- Arbitrary-value text color `^text-\[[^\]]+\]$`: after `text-[`, a
nonempty bracket body free of `]`, then a final `]`. -/
def isArbTextColor (s : Str) : Bool :=
  startsWithS s "text-[" &&
    (let rest := s.drop 6
     let inner := rest.takeWhile (fun c => c != ']')
     !inner.isEmpty && rest.drop inner.length == [']'])

/-- The `isColor` predicate shared by checkTypographyConflict and
checkColorConflict: a named palette shade or an arbitrary bracket value. -/
def isColorTok (s : Str) : Bool :=
  (colorNames.any fun n =>
    shadeNames.any fun sh => s == lit ("text-" ++ n ++ "-" ++ sh))
  || isArbTextColor s

/-- ConflictDetector.checkTypographyConflict. -/
def checkTypographyConflict (c1 c2 : Str) : Option ClassConflict :=
  if isSizeTok c1 && isSizeTok c2 then
    some { classes := [c1, c2], reason := lit "Conflicting font size values"
           fixable := false, suggestedFix := none }
  else if startsWithS c1 "font-" && startsWithS c2 "font-" then
    some { classes := [c1, c2], reason := lit "Conflicting font weight values"
           fixable := false, suggestedFix := none }
  else if startsWithS c1 "leading-" && startsWithS c2 "leading-" then
    some { classes := [c1, c2], reason := lit "Conflicting line height values"
           fixable := false, suggestedFix := none }
  else if startsWithS c1 "tracking-" && startsWithS c2 "tracking-" then
    some { classes := [c1, c2]
           reason := lit "Conflicting letter spacing values"
           fixable := false, suggestedFix := none }
  else none

/-- ConflictDetector.checkColorConflict. -/
def checkColorConflict (c1 c2 : Str) : Option ClassConflict :=
  if isColorTok c1 && isColorTok c2 then
    some { classes := [c1, c2], reason := lit "Conflicting text color values"
           fixable := false, suggestedFix := none }
  else if startsWithS c1 "bg-" && startsWithS c2 "bg-" then
    some { classes := [c1, c2]
           reason := lit "Conflicting background color values"
           fixable := false, suggestedFix := none }
  else if startsWithS c1 "border-" && startsWithS c2 "border-" then
    some { classes := [c1, c2]
           reason := lit "Conflicting border color values"
           fixable := false, suggestedFix := none }
  else none

/-- Fixed display set of checkLayoutConflict. -/
def displayClasses : List Str :=
  ["block", "inline", "inline-block", "flex", "inline-flex", "grid",
   "inline-grid", "flow-root", "hidden"].map lit

/-- Fixed position set of checkLayoutConflict. -/
def positionClasses : List Str :=
  ["static", "fixed", "absolute", "relative", "sticky"].map lit

/-- ConflictDetector.checkLayoutConflict. -/
def checkLayoutConflict (c1 c2 : Str) : Option ClassConflict :=
  if c1 ∈ displayClasses && c2 ∈ displayClasses then
    some { classes := [c1, c2], reason := lit "Conflicting display values"
           fixable := false, suggestedFix := none }
  else if c1 ∈ positionClasses && c2 ∈ positionClasses then
    some { classes := [c1, c2], reason := lit "Conflicting position values"
           fixable := false, suggestedFix := none }
  else none

/-- ConflictDetector.checkPatternConflict: the rules in source order,
returning the first verdict. -/
def checkPatternConflict (c1 c2 : Str) : Option ClassConflict :=
  checkSpacingConflict c1 c2 <|> checkSizingConflict c1 c2 <|>
  checkTypographyConflict c1 c2 <|> checkColorConflict c1 c2 <|>
  checkLayoutConflict c1 c2

/-- Ordered responsive breakpoint markers of getResponsivePrefix. -/
def respMarkers : List Str := ["sm:", "md:", "lg:", "xl:", "2xl:"].map lit

/-- ConflictDetector.getResponsivePrefix: the first marker the class starts
with, or none. -/
def respPfx (s : Str) : Option Str :=
  respMarkers.find? (fun p => p.isPrefixOf s)

/-- ConflictDetector.removeResponsivePrefix. -/
def stripRespPfx (s : Str) : Str :=
  match respPfx s with
  | some p => s.drop p.length
  | none => s

/-- ConflictDetector.getPropertyType, the anchored regex
`^([a-z-]+)(?:-[a-z0-9-]+)?$` with a greedy, backtracking first group: try
group lengths from the maximal `[a-z-]` run downwards; a candidate succeeds
when the remainder is empty or is `-` followed by a nonempty `[a-z0-9-]`
run covering the rest of the string. -/
def propType (s : Str) : Option Str :=
  go (s.takeWhile isAzDash).length
where
  go : Nat → Option Str
    | 0 => none
    | g + 1 =>
      let rest := s.drop (g + 1)
      if rest.isEmpty then some (s.take (g + 1))
      else
        match rest with
        | '-' :: tail =>
          if !tail.isEmpty && tail.all isValCh then some (s.take (g + 1))
          else go g
        | _ => go g

/-- ConflictDetector.areResponsiveVariants: same non-null property type of
the stripped bases, different responsive markers. -/
def areResponsiveVariants (c1 c2 : Str) : Bool :=
  let p1 := propType (stripRespPfx c1)
  let p2 := propType (stripRespPfx c2)
  (p1 == p2 && p1.isSome) && (respPfx c1 != respPfx c2)

/-- Ordered pairs produced by the nested `i < j` loops of
detectConflictsSync. -/
def pairsAfter : List Str → List (Str × Str)
  | [] => []
  | x :: xs => xs.map (fun y => (x, y)) ++ pairsAfter xs

/-- ConflictDetector.detectConflictsSync (the file path argument is used
only for logging in the source). -/
def detectConflictsSync (input : Str) (_fp : Str) : List ClassConflict :=
  let classes := extractClasses input
  if classes.length < 2 then []
  else
    (pairsAfter classes).filterMap fun p =>
      if areResponsiveVariants p.1 p.2 then none
      else checkPatternConflict p.1 p.2

example :
    detectConflictsSync (lit "mt-4 mt-6") (lit "a.html") =
      [{ classes := [lit "mt-4", lit "mt-6"]
         reason := lit "Conflicting margin values for same direction"
         fixable := true
         suggestedFix := some (lit "Keep only one: mt-4 or mt-6") }] := by
  decide

example : detectConflictsSync (lit "mt-4 md:mt-6") (lit "a.html") = [] := by
  decide

example :
    detectConflictsSync (lit "text-sm text-sky-400") (lit "a.html") = [] := by
  decide

example :
    detectConflictsSync (lit "text-sm text-[red]") (lit "a.html") = [] := by
  decide

example :
    extractClasses (lit "flex items-center p-4") =
      [lit "flex", lit "items-center", lit "p-4"] := by decide

/-! ## Canonical suggester (`CanonicalSuggester`) -/

/-- CanonicalSuggestion record from `canonical-suggester.ts`. -/
structure CanonicalSuggestion where
  original : Str
  canonical : Str
  reason : Str
deriving DecidableEq, Repr

/-- ASCII subset of the JavaScript `\s` class (the inputs handled here are
ASCII; the Unicode space characters of `\s` never occur in them). -/
def jsWs (c : Char) : Bool :=
  c == ' ' || c == '\t' || c == '\n' || c == '\r' ||
  c == '\x0b' || c == '\x0c'

/-- The nonempty maximal runs of non-whitespace characters: the semantics of
`split(/\s+/).filter(Boolean)`. One character is consumed per step, so fuel
equal to the string length suffices. -/
def splitWsTokens : Nat → Str → List Str
  | 0, _ => []
  | _, [] => []
  | fuel + 1, c :: rest =>
    if jsWs c then splitWsTokens fuel rest
    else
      let w := (c :: rest).takeWhile (fun x => !jsWs x)
      w :: splitWsTokens fuel ((c :: rest).drop w.length)

/-- splitWsTokens at its canonical fuel. -/
def splitWsF (s : Str) : List Str := splitWsTokens s.length s

/-- Attempt of the attribute regex
`(class(?:Name)?\s*=\s*["'])([^"']+)(["'])` at the current position,
returning the quoted content and the total match length. The optional
`Name`, both `\s*` runs and the greedy `[^"']+` are all deterministic
(shrinking any of them puts an impossible character next). -/
def matchAttrAt (s : Str) : Option (Str × Nat) :=
  if (lit "class").isPrefixOf s then
    let rest0 := s.drop 5
    let (nameLen, rest1) :=
      if (lit "Name").isPrefixOf rest0 then (4, rest0.drop 4) else (0, rest0)
    let ws1 := rest1.takeWhile jsWs
    match rest1.drop ws1.length with
    | '=' :: rest3 =>
      let ws2 := rest3.takeWhile jsWs
      match rest3.drop ws2.length with
      | q :: rest5 =>
        if q == '"' || q == '\'' then
          let content := rest5.takeWhile (fun c => !(c == '"' || c == '\''))
          if content.isEmpty then none
          else
            match rest5.drop content.length with
            | q2 :: _ =>
              if q2 == '"' || q2 == '\'' then
                some (content,
                  5 + nameLen + ws1.length + 1 + ws2.length + 1 +
                    content.length + 1)
              else none
            | [] => none
        else none
      | [] => none
    | _ => none
  else none

/-- Scan of the global attribute regex: leftmost matches, resuming after
each (every match consumes at least one character). -/
def attrScanGo : Nat → Str → List Str
  | 0, _ => []
  | _, [] => []
  | fuel + 1, s@(_ :: rest) =>
    match matchAttrAt s with
    | some (content, len) => content :: attrScanGo fuel (s.drop len)
    | none => attrScanGo fuel rest

/-- All `class=`/`className=` attribute contents of the fragment. -/
def attrContents (input : Str) : List Str := attrScanGo input.length input

/-- Value part `(?:\[[^\]]+\]|[a-z0-9\.]+)` of the fallback token grammar. -/
def fbValueOk (v : Str) : Bool :=
  (match v with
   | '[' :: r =>
     let inner := r.takeWhile (fun c => c != ']')
     !inner.isEmpty && r.drop inner.length == [']']
   | _ => false)
  || (!v.isEmpty && v.all (fun c => isLowerAlpha c || isDigitCh c || c == '.'))

/-- Stem-and-value part `[a-z-]+(?:-(?:\[[^\]]+\]|[a-z0-9\.]+))` of the
fallback grammar: some nonempty `[a-z-]` stem, a dash, then a value covering
the rest. The greedy stem backtracks, so all stem lengths are tried. -/
def fbStemVal (s : Str) : Bool :=
  let maxStem := (s.takeWhile isAzDash).length
  (List.range (maxStem + 1)).any fun len =>
    decide (1 ≤ len) && s.get? len == some '-' && fbValueOk (s.drop (len + 1))

/-- Core of the fallback grammar after the optional `!` markers: zero or
more variant groups `(?:[a-z-]+:)*` then a stem and value. Each group is
deterministic (a shorter body cannot reach the `:`); the number of groups is
searched, which matches the regex backtracking as a boolean. -/
def fbCore : Nat → Str → Bool
  | 0, _ => false
  | fuel + 1, s =>
    fbStemVal s ||
    (let w := s.takeWhile isAzDash
     !w.isEmpty && s.get? w.length == some ':' &&
       fbCore fuel (s.drop (w.length + 1)))

/-- The fallback token grammar
`^[!]?((?:[a-z-]+:)*)?[a-z-]+(?:-(?:\[[^\]]+\]|[a-z0-9\.]+))!?$`. A leading
or trailing `!` can only be consumed by the optional `!` markers (no inner
class contains `!` except a bracket body, which must end in `]`). -/
def fallbackTest (s : Str) : Bool :=
  let s1 := match s with | '!' :: r => r | _ => s
  let s2 := if s1.getLast? == some '!' then s1.dropLast else s1
  fbCore s2.length s2

/-- The `tok.replace(/["'<>]/g, '')` cleanup of fallback extraction. -/
def cleanTok (tok : Str) : Str :=
  tok.filter (fun c => !(c == '"' || c == '\'' || c == '<' || c == '>'))

/-- CanonicalSuggester.extractClassesFromInput: attribute contents split on
whitespace; when that yields no token, the whitespace-split fallback keeps
the cleaned tokens that match the token grammar. -/
def extractClassesFromInput (input : Str) : List Str :=
  let fromAttrs := (attrContents input).flatMap splitWsF
  if fromAttrs.isEmpty then
    (splitWsF input).filterMap fun tok =>
      let cleaned := cleanTok tok
      if fallbackTest cleaned then some cleaned else none
  else fromAttrs

/-- Prop stems `(m|p|mt|mr|mb|ml|mx|my|pt|pr|pb|pl|px|py)` in alternation
order. -/
def spacingStems : List String :=
  ["m", "p", "mt", "mr", "mb", "ml", "mx", "my", "pt", "pr", "pb", "pl",
   "px", "py"]

/-- Frac models a JavaScript number as an exact, unnormalized fraction (the
numbers handled by the value tables are small enough that float rounding
never changes a comparison). Its operations are structural, so concrete
computations reduce in the kernel, unlike `Rat`'s normalizing operations. -/
structure Frac where
  num : Int
  den : Nat
deriving DecidableEq, Repr

/-- Fraction literal shorthand. -/
def fq (n : Int) (d : Nat) : Frac := ⟨n, d⟩

/-- Exact subtraction on fractions. -/
def fSub (a b : Frac) : Frac := ⟨a.num * b.den - b.num * a.den, a.den * b.den⟩

/-- Absolute value on fractions (the denominators used are positive). -/
def fAbs (a : Frac) : Frac := ⟨(a.num.natAbs : Int), a.den⟩

/-- Strict comparison by cross-multiplication (valid for positive
denominators, which all uses maintain). -/
def fLt (a b : Frac) : Bool := a.num * (b.den : Int) < b.num * (a.den : Int)

/-- Rational value of a fraction (for specification statements). -/
def fVal (a : Frac) : ℚ := (a.num : ℚ) / (a.den : ℚ)

/-- The valid-values table of roundToNearestValidValue:
0, 0.5, 1, 1.5, 2, 2.5, 3, 3.5, 4, 5, …, 80, 96. -/
def validValues : List Frac :=
  [fq 0 1, fq 1 2, fq 1 1, fq 3 2, fq 2 1, fq 5 2, fq 3 1, fq 7 2, fq 4 1,
   fq 5 1, fq 6 1, fq 7 1, fq 8 1, fq 9 1, fq 10 1, fq 11 1, fq 12 1,
   fq 14 1, fq 16 1, fq 20 1, fq 24 1, fq 28 1, fq 32 1, fq 36 1, fq 40 1,
   fq 44 1, fq 48 1, fq 52 1, fq 56 1, fq 60 1, fq 64 1, fq 72 1, fq 80 1,
   fq 96 1]

/-- The allowed list of the px-to-scale conversion (`pxToScale`):
0, 0.5, 1, 1.5, 2, 2.5, 3, 3.5, 4, 5, 6, 7, 8, 9, 10. -/
def pxAllowed : List Frac :=
  [fq 0 1, fq 1 2, fq 1 1, fq 3 2, fq 2 1, fq 5 2, fq 3 1, fq 7 2, fq 4 1,
   fq 5 1, fq 6 1, fq 7 1, fq 8 1, fq 9 1, fq 10 1]

/-- The closest-value loop shared by roundToNearestValidValue and pxToScale:
start from the first entry and replace it on strict improvement, so ties
keep the earlier (smaller) entry. -/
def jsNearest (vals : List Frac) (x : Frac) : Frac :=
  match vals with
  | [] => fq 0 1
  | v0 :: _ =>
    vals.foldl
      (fun best v => if fLt (fAbs (fSub x v)) (fAbs (fSub x best)) then v else best)
      v0

/-- Decimal digits of a natural number (`String(n)` for integers); the
first argument is fuel, one more than the number. -/
def natDigits : Nat → Nat → Str
  | 0, _ => []
  | fuel + 1, n =>
    if n < 10 then [Char.ofNat (48 + n)]
    else natDigits fuel (n / 10) ++ [Char.ofNat (48 + n % 10)]

/-- JavaScript `String(q)` for the nonnegative halves and integers the
value tables contain: an integer prints without a point, a half prints
with `.5`. -/
def jsNumToStr (q : Frac) : Str :=
  if q.den == 1 then natDigits (q.num.toNat + 1) q.num.toNat
  else natDigits ((q.num / 2).toNat + 1) (q.num / 2).toNat ++ lit ".5"

/-- Numeric value of a digit run. -/
def digitsToNat (ds : Str) : Nat :=
  ds.foldl (fun a c => a * 10 + (c.toNat - 48)) 0

/-- parseFloat of the captured `\d+\.\d+` decimal, as an exact fraction. -/
def parseDecimal (intPart fracPart : Str) : Frac :=
  ⟨(digitsToNat intPart * 10 ^ fracPart.length + digitsToNat fracPart : Nat),
   10 ^ fracPart.length⟩

/-- The decimal-spacing rule: `^(m|p|mt|...|py)-(\d+\.\d+)$`, rounding to
the nearest entry of validValues. The guard
`roundedValue !== decimalValue || decimalValue.includes('.')` is always true
(the capture always contains a point), so a match always suggests. -/
def suggestNumeric (s : Str) : Option CanonicalSuggestion :=
  spacingStems.findSome? fun p =>
    let pat := lit p ++ ['-']
    if pat.isPrefixOf s then
      let rest := s.drop pat.length
      let ds1 := rest.takeWhile isDigitCh
      if ds1.isEmpty then none
      else if rest.get? ds1.length == some '.' then
        let ds2 := rest.drop (ds1.length + 1)
        if !ds2.isEmpty && ds2.all isDigitCh then
          let value := parseDecimal ds1 ds2
          let rounded := jsNearest validValues value
          some { original := s
                 canonical := lit p ++ '-' :: jsNumToStr rounded
                 reason := lit "Use standard Tailwind spacing value instead of decimal '" ++
                   rest ++ lit "'" }
        else none
      else none
    else none

/-- Replace the first occurrence of `pat` in `s` (JavaScript
`String.replace` with a string pattern). -/
def replaceFirst (s pat rep : Str) : Str :=
  match (List.range (s.length + 1)).find? (fun i => pat.isPrefixOf (s.drop i)) with
  | some i => s.take i ++ rep ++ s.drop (i + pat.length)
  | none => s

/-- Substring containment, the semantics of `String.includes`. -/
def containsSub (s sub : Str) : Bool :=
  (List.range (s.length + 1)).any fun i => sub.isPrefixOf (s.drop i)

/-- The British-to-American spelling rule, in the object-entry order of the
source (`centre` before `colour`). -/
def suggestBritish (s : Str) : Option CanonicalSuggestion :=
  [("centre", "center"), ("colour", "color")].findSome? fun pr =>
    if containsSub s (lit pr.1) then
      some { original := s
             canonical := replaceFirst s (lit pr.1) (lit pr.2)
             reason := lit "Use American spelling '" ++ lit pr.2 ++
               lit "' instead of British spelling '" ++ lit pr.1 ++ lit "'" }
    else none

/-- The important-modifier rule `^!([a-z0-9:-]+)$`: a leading `!` becomes a
trailing one. -/
def suggestBang (s : Str) : Option CanonicalSuggestion :=
  match s with
  | '!' :: rest =>
    if !rest.isEmpty &&
        rest.all (fun c => isLowerAlpha c || isDigitCh c || c == ':' || c == '-') then
      some { original := s, canonical := rest ++ ['!']
             reason := lit "Use trailing ! for important modifier" }
    else none
  | _ => none

/-- The `.replace(/:$/, '')` cleanup applied to every built canonical. -/
def stripTrailColon (s : Str) : Str :=
  if s.getLast? == some ':' then s.dropLast else s

/-- Cut positions of the greedy variant group `(?:[a-z-]+:)*` in ascending
order (0 is always a cut). Each group body is deterministic: a shorter body
cannot put the `:` next. -/
def varPfxCuts : Nat → Str → List Nat
  | 0, _ => [0]
  | fuel + 1, s =>
    let w := s.takeWhile isAzDash
    if !w.isEmpty && s.get? w.length == some ':' then
      0 :: (varPfxCuts fuel (s.drop (w.length + 1))).map (· + (w.length + 1))
    else [0]

/-- Try the tail matcher under every variant-group split, most groups first
(the regex backtracking order of `^((?:[a-z-]+:)*) tail $`). -/
def tryPfx {α : Type} (s : Str) (f : Str → Str → Option α) : Option α :=
  ((varPfxCuts s.length s).reverse).findSome? fun k => f (s.take k) (s.drop k)

/-- The legacy display rule
`^((?:[a-z-]+:)*)display-(block|inline|flex|grid|none)$`. -/
def suggestDisplay (s : Str) : Option CanonicalSuggestion :=
  tryPfx s fun pfx rest =>
    [("block", "block"), ("inline", "inline"), ("flex", "flex"),
     ("grid", "grid"), ("none", "hidden")].findSome? fun pr =>
      if rest == lit ("display-" ++ pr.1) then
        some { original := s, canonical := stripTrailColon (pfx ++ lit pr.2)
               reason := lit "Use canonical display utility" }
      else none

/-- The legacy width rule `^((?:[a-z-]+:)*)width-(full|auto)$`. -/
def suggestWidth (s : Str) : Option CanonicalSuggestion :=
  tryPfx s fun pfx rest =>
    ["full", "auto"].findSome? fun v =>
      if rest == lit ("width-" ++ v) then
        some { original := s, canonical := stripTrailColon (pfx ++ lit ("w-" ++ v))
               reason := lit "Use w-* sizing utility" }
      else none

/-- The legacy height rule `^((?:[a-z-]+:)*)height-(full|auto)$`. -/
def suggestHeight (s : Str) : Option CanonicalSuggestion :=
  tryPfx s fun pfx rest =>
    ["full", "auto"].findSome? fun v =>
      if rest == lit ("height-" ++ v) then
        some { original := s, canonical := stripTrailColon (pfx ++ lit ("h-" ++ v))
               reason := lit "Use h-* sizing utility" }
      else none

/-- The legacy margin rule `^((?:[a-z-]+:)*)margin-(\d+)$`. -/
def suggestMargin (s : Str) : Option CanonicalSuggestion :=
  tryPfx s fun pfx rest =>
    if (lit "margin-").isPrefixOf rest then
      let num := rest.drop 7
      if !num.isEmpty && num.all isDigitCh then
        some { original := s, canonical := stripTrailColon (pfx ++ lit "m-" ++ num)
               reason := lit "Use m-* spacing utility" }
      else none
    else none

/-- The legacy padding rule `^((?:[a-z-]+:)*)padding-(\d+)$`. -/
def suggestPadding (s : Str) : Option CanonicalSuggestion :=
  tryPfx s fun pfx rest =>
    if (lit "padding-").isPrefixOf rest then
      let num := rest.drop 8
      if !num.isEmpty && num.all isDigitCh then
        some { original := s, canonical := stripTrailColon (pfx ++ lit "p-" ++ num)
               reason := lit "Use p-* spacing utility" }
      else none
    else none

/-- The flex-grow rule `^((?:[a-z-]+:)*)flex-grow$`. -/
def suggestFlexGrow (s : Str) : Option CanonicalSuggestion :=
  tryPfx s fun pfx rest =>
    if rest == lit "flex-grow" then
      some { original := s, canonical := stripTrailColon (pfx ++ lit "grow")
             reason := lit "Use grow instead of flex-grow" }
    else none

/-- The break-words rule `^((?:[a-z-]+:)*)break-words$`. -/
def suggestBreakWords (s : Str) : Option CanonicalSuggestion :=
  tryPfx s fun pfx rest =>
    if rest == lit "break-words" then
      some { original := s
             canonical := stripTrailColon (pfx ++ lit "wrap-break-word")
             reason := lit "Use wrap-break-word instead of break-words" }
    else none

/-- The grey rule `^((?:[a-z-]+:)*)((text|bg|border)-)grey$`. -/
def suggestGrey (s : Str) : Option CanonicalSuggestion :=
  tryPfx s fun pfx rest =>
    ["text-", "bg-", "border-"].findSome? fun u =>
      if rest == lit (u ++ "grey") then
        some { original := s
               canonical := stripTrailColon (pfx ++ lit u ++ lit "gray-500")
               reason := lit "Use American spelling gray and provide a standard shade" }
      else none

/-- The text-regular rule `^((?:[a-z-]+:)*)text-(regular|normal)$`. -/
def suggestTextRegular (s : Str) : Option CanonicalSuggestion :=
  tryPfx s fun pfx rest =>
    ["regular", "normal"].findSome? fun v =>
      if rest == lit ("text-" ++ v) then
        some { original := s, canonical := stripTrailColon (pfx ++ lit "text-base")
               reason := lit "Use text-base for regular text" }
      else none

/-- The font-regular rule `^((?:[a-z-]+:)*)font-(regular|standard)$`. -/
def suggestFontRegular (s : Str) : Option CanonicalSuggestion :=
  tryPfx s fun pfx rest =>
    ["regular", "standard"].findSome? fun v =>
      if rest == lit ("font-" ++ v) then
        some { original := s, canonical := stripTrailColon (pfx ++ lit "font-normal")
               reason := lit "Use font-normal for regular weight" }
      else none

/-- Parse `-?[0-9]+` followed exactly by the given closer: returns the
signed-number token and its absolute value. -/
def parseSignedNum (v : Str) (closer : Str) : Option (Str × Bool × Nat) :=
  let (sgn, ds0) := match v with | '-' :: r => (true, r) | _ => (false, v)
  let ds := ds0.takeWhile isDigitCh
  if !ds.isEmpty && ds0.drop ds.length == closer then
    some ((if sgn then ['-'] else []) ++ ds, sgn, digitsToNat ds)
  else none

/-- The z-index rule `^((?:[a-z-]+:)*)z-\[(-?[0-9]+)\]$`: unwrap the
brackets, keeping the signed numeral verbatim. -/
def suggestZArb (s : Str) : Option CanonicalSuggestion :=
  tryPfx s fun pfx rest =>
    if (lit "z-[").isPrefixOf rest then
      match parseSignedNum (rest.drop 3) [']'] with
      | some (numTok, _, _) =>
        some { original := s
               canonical := stripTrailColon (pfx ++ lit "z-" ++ numTok)
               reason := lit "Use canonical numeric z-index without brackets" }
      | none => none
    else none

/-- pxToScale: divide by 4 and snap to the nearest entry of pxAllowed (both
branches of the source ternary print the same way). -/
def pxToScaleStr (n : Nat) : Str := jsNumToStr (jsNearest pxAllowed (fq n 4))

/-- Property stems of the px-spacing rule, in alternation order. -/
def pxStems : List String :=
  ["m", "p", "mt", "mr", "mb", "ml", "mx", "my", "pt", "pr", "pb", "pl",
   "px", "py", "top", "left", "right", "bottom", "inset"]

/-- The px-spacing rule
`^((?:[a-z-]+:)*)?(-)?(m|p|...|inset)-\[(-?[0-9]+)px\]$`: convert the pixel
magnitude to a scale token, negative when the bracket value is negative
(`px < 0`, so `-0` counts as nonnegative) or the `-` shorthand is present. -/
def suggestPxSpacing (s : Str) : Option CanonicalSuggestion :=
  tryPfx s fun pfx rest =>
    let (negB, rest2) := match rest with | '-' :: r => (true, r) | _ => (false, rest)
    pxStems.findSome? fun p =>
      let pat := lit (p ++ "-[")
      if pat.isPrefixOf rest2 then
        match parseSignedNum (rest2.drop pat.length) (lit "px]") with
        | some (_, sgn, pxAbs) =>
          let pxNeg := sgn && decide (0 < pxAbs)
          let sign : Str := if pxNeg || negB then ['-'] else []
          some { original := s
                 canonical := stripTrailColon
                   (pfx ++ sign ++ lit p ++ '-' :: pxToScaleStr pxAbs)
                 reason := lit "Use scale token instead of arbitrary px value" }
        | none => none
      else none

/-- The pseudo-element px rule
`^((?:[a-z-]+:)*)?(before|after):(top|left|right|bottom|inset)-\[(-?[0-9]+)px\]$`.
Here the variant-group backtracking matters: the greedy group first swallows
`before:`/`after:`, and only the shorter split lets the pseudo group match —
`tryPfx` reproduces exactly this order. -/
def suggestPseudoPx (s : Str) : Option CanonicalSuggestion :=
  tryPfx s fun pfx rest =>
    ["before", "after"].findSome? fun ps =>
      if (lit (ps ++ ":")).isPrefixOf rest then
        let rest2 := rest.drop (ps.length + 1)
        ["top", "left", "right", "bottom", "inset"].findSome? fun p =>
          let pat := lit (p ++ "-[")
          if pat.isPrefixOf rest2 then
            match parseSignedNum (rest2.drop pat.length) (lit "px]") with
            | some (_, sgn, pxAbs) =>
              let pxNeg := sgn && decide (0 < pxAbs)
              let sign : Str := if pxNeg then ['-'] else []
              some { original := s
                     canonical := stripTrailColon
                       (pfx ++ lit ps ++ ':' :: sign ++ lit p ++ '-' ::
                         pxToScaleStr pxAbs)
                     reason := lit "Use scale token instead of arbitrary px value" }
            | none => none
          else none
      else none

/-- First-some chain (the early-return structure of the source: each rule
returns as soon as it matches). -/
def firstSome : List (Option CanonicalSuggestion) → Option CanonicalSuggestion
  | [] => none
  | some r :: _ => some r
  | none :: rest => firstSome rest

/-- CanonicalSuggester.getPatternBasedSuggestion: the rules in source order,
first match wins. -/
def getPatternBasedSuggestion (s : Str) : Option CanonicalSuggestion :=
  firstSome
    [suggestNumeric s, suggestBritish s, suggestBang s, suggestDisplay s,
     suggestWidth s, suggestHeight s, suggestMargin s, suggestPadding s,
     suggestFlexGrow s, suggestBreakWords s, suggestGrey s,
     suggestTextRegular s, suggestFontRegular s, suggestZArb s,
     suggestPxSpacing s, suggestPseudoPx s]

example : extractClassesFromInput (lit "mt-[2px]") = [lit "mt-[2px]"] := by decide

example :
    getPatternBasedSuggestion (lit "mt-[2px]") =
      some { original := lit "mt-[2px]", canonical := lit "mt-0.5"
             reason := lit "Use scale token instead of arbitrary px value" } := by
  decide

example :
    getPatternBasedSuggestion (lit "mt-[-20px]") =
      some { original := lit "mt-[-20px]", canonical := lit "-mt-5"
             reason := lit "Use scale token instead of arbitrary px value" } := by
  decide

example :
    getPatternBasedSuggestion (lit "flex-grow") =
      some { original := lit "flex-grow", canonical := lit "grow"
             reason := lit "Use grow instead of flex-grow" } := by decide

example :
    getPatternBasedSuggestion (lit "!mb-0") =
      some { original := lit "!mb-0", canonical := lit "mb-0!"
             reason := lit "Use trailing ! for important modifier" } := by decide

example :
    extractClassesFromInput (lit "the quick brown fox jumps over the lazy dog") =
      [] := by decide

/-! ## Auto fixer (`AutoFixer`, utils/auto-fixer)

`fixConflict(fixer, node, conflict)` reads the node text, computes a fixed
text and returns `fixer.replaceText(node, fixedText)` when the text changed,
`null` otherwise. The embedding takes the node text directly and returns the
replacement text as `some`, with `none` for the `null` outcomes; the
`try`/`catch` wraps pure string operations that cannot throw. -/

/-- JavaScript `classString.split(/\s+/)` without the `filter(Boolean)`
cleanup: the nonempty tokens, plus an empty string at an end that touches a
separator (and `[""]` for the empty string). -/
def jsSplitWs (s : Str) : List Str :=
  if s.isEmpty then [[]]
  else
    let lead := match s.head? with | some c => jsWs c | none => false
    let trail := match s.getLast? with | some c => jsWs c | none => false
    (if lead then [([] : Str)] else []) ++ splitWsF s ++
      (if trail then [([] : Str)] else [])

/-- `Array.flatten(' ')`. -/
def joinSpace : List Str → Str
  | [] => []
  | [x] => x
  | x :: xs => x ++ ' ' :: joinSpace xs

/-- `String.trim()` (ASCII whitespace, as elsewhere). -/
def trimWs (s : Str) : Str :=
  ((s.dropWhile jsWs).reverse.dropWhile jsWs).reverse

/-- AutoFixer.removeClasses. -/
def removeClasses (classString : Str) (toRemove : List Str) : Str :=
  joinSpace ((jsSplitWs classString).filter (fun cls => !toRemove.contains cls))

/-- AutoFixer.replaceClasses: remove the conflicting classes, then append
the replacement text as one class-list entry when it is truthy, is not the
literal `Choose one:` and is not already present, and trim. -/
def replaceClasses (classString : Str) (toReplace : List Str) (replacement : Str) : Str :=
  let result := removeClasses classString toReplace
  let result2 :=
    if !replacement.isEmpty && replacement != lit "Choose one:" then
      let resultClasses := (jsSplitWs result).filter (fun t => !t.isEmpty)
      if !resultClasses.contains replacement then
        joinSpace (resultClasses ++ [replacement])
      else result
    else result
  trimWs result2

/-- AutoFixer.fixConflict on the node text. `!conflict.suggestedFix` is
JavaScript truthiness: absent or empty. A suggested fix containing
`Choose one:` removes the classes; any other fix goes through
replaceClasses; an unchanged text yields `null`. -/
def fixConflict (originalText : Str) (c : ClassConflict) : Option Str :=
  if !c.fixable then none
  else
    match c.suggestedFix with
    | none => none
    | some sf =>
      if sf.isEmpty then none
      else
        let fixedText :=
          if containsSub sf (lit "Choose one:") then
            removeClasses originalText c.classes
          else replaceClasses originalText c.classes sf
        if fixedText != originalText then some fixedText else none

example :
    fixConflict (lit "mt-4 mt-6")
      { classes := [lit "mt-4", lit "mt-6"]
        reason := lit "Conflicting margin values for same direction"
        fixable := true
        suggestedFix := some (lit "Keep only one: mt-4 or mt-6") } =
      some (lit "Keep only one: mt-4 or mt-6") := by decide

/-! ## Diagnostics bridge framing (`TailwindLspClient.onData`)

The byte stream is modelled as `Str`. `onData` appends the chunk to the
buffer and drains it: find the first `\r\n\r\n`; a header without a
parseable `Content-Length` is discarded up to its terminator; a complete
frame's body is sliced off and emitted; an absent terminator or incomplete
body leaves the buffer for the next read. The emitted messages are the raw
body strings (`JSON.parse`/`onMessage` handle them downstream). -/

/-- The header terminator `\r\n\r\n`. -/
def crlf2 : Str := ['\r', '\n', '\r', '\n']

/-- Index of the first occurrence of the terminator (`buf.indexOf`). -/
def findTerm : Str → Option Nat
  | [] => none
  | s@(_ :: rest) =>
    if crlf2.isPrefixOf s then some 0 else (findTerm rest).map (· + 1)

/-- Lowercasing for the case-insensitive header match. -/
def toLowerCh (c : Char) : Char :=
  if 'A' ≤ c && c ≤ 'Z' then Char.ofNat (c.toNat + 32) else c

/-- Case-insensitive prefix test. -/
def ciPrefix (p s : Str) : Bool :=
  decide (p.length ≤ s.length) &&
    (p.zip s).all (fun pr => toLowerCh pr.1 == toLowerCh pr.2)

/-- One attempt of `/Content-Length:\s*(\d+)/i` at the current position:
the literal key, optional whitespace, then at least one digit (the greedy
`\d+` capture, read by `parseInt`). -/
def findCLAt (s : Str) : Option Nat :=
  if ciPrefix (lit "content-length:") s then
    let r := (s.drop 15).dropWhile jsWs
    let ds := r.takeWhile isDigitCh
    if ds.isEmpty then none else some (digitsToNat ds)
  else none

/-- Unanchored search of the Content-Length regex over the header. -/
def findCL : Str → Option Nat
  | [] => none
  | s@(_ :: rest) => findCLAt s <|> findCL rest

/-- The drain loop of onData over the buffer, with fuel (each iteration
consumes at least the four terminator bytes, so the buffer length is enough
fuel): returns the emitted message bodies and the remaining buffer. -/
def drainF : Nat → Str → List Str × Str
  | 0, buf => ([], buf)
  | fuel + 1, buf =>
    match findTerm buf with
    | none => ([], buf)
    | some h =>
      match findCL (buf.take h) with
      | none => drainF fuel (buf.drop (h + 4))
      | some len =>
        if buf.length < h + 4 + len then ([], buf)
        else
          let body := (buf.drop (h + 4)).take len
          let rest := buf.drop (h + 4 + len)
          let (ms, b) := drainF fuel rest
          (body :: ms, b)

/-- The drain loop at its canonical fuel. -/
def drain (buf : Str) : List Str × Str := drainF buf.length buf

/-- Feeding a sequence of chunks to onData, starting from the given
buffer: each chunk is appended and the buffer drained, accumulating the
emitted bodies. -/
def processChunks : Str → List Str → List Str × Str
  | buf, [] => ([], buf)
  | buf, c :: cs =>
    let (ms, b) := drain (buf ++ c)
    let (ms2, b2) := processChunks b cs
    (ms ++ ms2, b2)

example :
    drain (lit "X-Head: 1\r\n\r\nContent-Length: 2\r\n\r\nhi") =
      ([lit "hi"], []) := by decide

example :
    processChunks [] [lit "Content-Length:", lit " 2\r\n\r", lit "\nhi"] =
      ([lit "hi"], []) := by decide

/-! ## Diagnostics subscription (`TailwindLspClient.getCanonicalDiagnostics`)

`getCanonicalDiagnostics` registers a one-shot subscriber for the document
URI and races two wake sources: a diagnostics push for that URI (delivered
by onMessage through the listener map) and a 1200 ms timer that resolves the
promise with `[]`; a promise resolves only once, so the first event wins.
After the await the listener entry for the URI is deleted. The embedding
passes the listener-map state explicitly and summarises the race by the
arrival time of the first push for the URI, if any. -/

/-- The fixed timeout of the subscription race, in milliseconds. -/
def timeoutMs : Nat := 1200

/-- `Map.set` on the set of registered listener keys. -/
def mapSetKey (m : List Str) (k : Str) : List Str :=
  if k ∈ m then m else m ++ [k]

/-- `Map.delete` on the set of registered listener keys. -/
def mapDeleteKey (m : List Str) (k : Str) : List Str :=
  m.filter (fun x => x != k)

/-- Resolution of the race between the first diagnostics push for the URI
(arrival time and payload) and the timer: a push strictly inside the window
delivers its payload, otherwise the timer resolves with the empty list. -/
def subscriptionOutcome {α : Type} (arrival : Option (Nat × List α)) : List α :=
  match arrival with
  | some (t, d) => if t < timeoutMs then d else []
  | none => []

/-- getCanonicalDiagnostics on the listener-map state: register the URI,
resolve the race, then delete the listener; returns the resolved
diagnostics and the final listener map. -/
def getCanonicalDiagnosticsModel {α : Type} (listeners : List Str) (uri : Str)
    (arrival : Option (Nat × List α)) : List α × List Str :=
  let withSub := mapSetKey listeners uri
  (subscriptionOutcome arrival, mapDeleteKey withSub uri)

/-! ## Helper lemmas -/

/-- Members produced by the de-duplication loop avoid the seen set. -/
theorem dedupFirst_go_not_seen :
    ∀ (l seen : List Str) (x : Str), x ∈ dedupFirst.go seen l → x ∉ seen := by
  intro l
  induction l with
  | nil => intro seen x h; simp [dedupFirst.go] at h
  | cons a t ih =>
    intro seen x h
    simp only [dedupFirst.go] at h
    split at h
    · exact ih seen x h
    · rename_i hnot
      rcases List.mem_cons.mp h with rfl | h2
      · exact hnot
      · intro hx
        exact ih _ x h2 (List.mem_cons_of_mem _ hx)

/-- The de-duplication loop yields a duplicate-free list. -/
theorem dedupFirst_go_nodup : ∀ (l seen : List Str), (dedupFirst.go seen l).Nodup := by
  intro l
  induction l with
  | nil => intro seen; simp [dedupFirst.go]
  | cons a t ih =>
    intro seen
    simp only [dedupFirst.go]
    split
    · exact ih seen
    · refine List.Nodup.cons (fun hmem => ?_) (ih (a :: seen))
      exact dedupFirst_go_not_seen t (a :: seen) a hmem (List.mem_cons_self a seen)

/-- Extraction always yields a duplicate-free token list. -/
theorem extractClasses_nodup (input : Str) : (extractClasses input).Nodup :=
  dedupFirst_go_nodup _ _

/-- Two distinct members of a list appear, in one order or the other, among
the ordered pairs of the detection loop. -/
theorem pairsAfter_mem :
    ∀ (l : List Str) (a b : Str), a ≠ b → a ∈ l → b ∈ l →
      (a, b) ∈ pairsAfter l ∨ (b, a) ∈ pairsAfter l := by
  intro l
  induction l with
  | nil => intro a b _ ha _; simp at ha
  | cons x t ih =>
    intro a b hne ha hb
    rcases List.mem_cons.mp ha with rfl | ha'
    · have hb' : b ∈ t := by
        rcases List.mem_cons.mp hb with rfl | h
        · exact absurd rfl hne
        · exact h
      exact Or.inl (List.mem_append_left _ (List.mem_map.mpr ⟨b, hb', rfl⟩))
    · rcases List.mem_cons.mp hb with rfl | hb'
      · exact Or.inr (List.mem_append_left _ (List.mem_map.mpr ⟨a, ha', rfl⟩))
      · rcases ih a b hne ha' hb' with h | h
        · exact Or.inl (List.mem_append_right _ h)
        · exact Or.inr (List.mem_append_right _ h)

/-- Over a duplicate-free list, the detection loop only compares distinct
tokens. -/
theorem pairsAfter_fst_ne_snd :
    ∀ (l : List Str), l.Nodup → ∀ p ∈ pairsAfter l, p.1 ≠ p.2 := by
  intro l
  induction l with
  | nil => intro _ p hp; simp [pairsAfter] at hp
  | cons x t ih =>
    intro hnd p hp
    rcases List.mem_append.mp hp with h | h
    · rcases List.mem_map.mp h with ⟨y, hy, rfl⟩
      intro hxy
      have hxy' : x = y := hxy
      exact (List.nodup_cons.mp hnd).1 (hxy' ▸ hy)
    · exact ih (List.nodup_cons.mp hnd).2 p h

/-- A pair exists only when the list has at least two entries. -/
theorem pairsAfter_two_le :
    ∀ (l : List Str) (p : Str × Str), p ∈ pairsAfter l → 2 ≤ l.length := by
  intro l
  induction l with
  | nil => intro p hp; simp [pairsAfter] at hp
  | cons x t ih =>
    intro p hp
    rcases List.mem_append.mp hp with h | h
    · rcases List.mem_map.mp h with ⟨y, hy, rfl⟩
      have : t ≠ [] := by rintro rfl; simp at hy
      have := List.length_pos.mpr this
      simp only [List.length_cons]
      omega
    · have := ih p h
      simp only [List.length_cons]
      omega

/-- Introduction rule for the sync detector: a compared pair that is not a
responsive-variant pair and trips a rule contributes its conflict. -/
theorem detect_intro {input fp a b : Str} {conf : ClassConflict}
    (hp : (a, b) ∈ pairsAfter (extractClasses input))
    (hrv : areResponsiveVariants a b = false)
    (hc : checkPatternConflict a b = some conf) :
    conf ∈ detectConflictsSync input fp := by
  have h2 : ¬ (extractClasses input).length < 2 := by
    have := pairsAfter_two_le _ _ hp
    omega
  simp only [detectConflictsSync]
  rw [if_neg h2]
  exact List.mem_filterMap.mpr ⟨(a, b), hp, by simp [hrv, hc]⟩

/-- Elimination rule for the sync detector: every reported conflict comes
from a compared pair that is not a responsive-variant pair. -/
theorem detect_elim {input fp : Str} {conf : ClassConflict}
    (h : conf ∈ detectConflictsSync input fp) :
    ∃ a b, (a, b) ∈ pairsAfter (extractClasses input) ∧
      areResponsiveVariants a b = false ∧ checkPatternConflict a b = some conf := by
  simp only [detectConflictsSync] at h
  split at h
  · simp at h
  · rcases List.mem_filterMap.mp h with ⟨p, hp, hf⟩
    by_cases hrv : areResponsiveVariants p.1 p.2 = true
    · rw [if_pos hrv] at hf; cases hf
    · rw [if_neg hrv] at hf
      simp only [Bool.not_eq_true] at hrv
      exact ⟨p.1, p.2, hp, hrv, hf⟩

/-- Every spacing verdict names the two compared classes in order. -/
theorem checkSpacingConflict_classes {a b : Str} {conf : ClassConflict}
    (h : checkSpacingConflict a b = some conf) : conf.classes = [a, b] := by
  unfold checkSpacingConflict at h
  split at h
  · split at h
    · injection h with h'; subst h'; rfl
    · cases h
  · cases h

/-- Every sizing verdict names the two compared classes in order. -/
theorem checkSizingConflict_classes {a b : Str} {conf : ClassConflict}
    (h : checkSizingConflict a b = some conf) : conf.classes = [a, b] := by
  unfold checkSizingConflict at h
  split at h
  · split at h
    · split at h
      · injection h with h'; subst h'; rfl
      · cases h
    · cases h
  · cases h

/-- Every typography verdict names the two compared classes in order. -/
theorem checkTypographyConflict_classes {a b : Str} {conf : ClassConflict}
    (h : checkTypographyConflict a b = some conf) : conf.classes = [a, b] := by
  unfold checkTypographyConflict at h
  split at h
  · injection h with h'; subst h'; rfl
  · split at h
    · injection h with h'; subst h'; rfl
    · split at h
      · injection h with h'; subst h'; rfl
      · split at h
        · injection h with h'; subst h'; rfl
        · cases h

/-- Every color verdict names the two compared classes in order. -/
theorem checkColorConflict_classes {a b : Str} {conf : ClassConflict}
    (h : checkColorConflict a b = some conf) : conf.classes = [a, b] := by
  unfold checkColorConflict at h
  split at h
  · injection h with h'; subst h'; rfl
  · split at h
    · injection h with h'; subst h'; rfl
    · split at h
      · injection h with h'; subst h'; rfl
      · cases h

/-- Every layout verdict names the two compared classes in order. -/
theorem checkLayoutConflict_classes {a b : Str} {conf : ClassConflict}
    (h : checkLayoutConflict a b = some conf) : conf.classes = [a, b] := by
  unfold checkLayoutConflict at h
  split at h
  · injection h with h'; subst h'; rfl
  · split at h
    · injection h with h'; subst h'; rfl
    · cases h

/-- Every rule verdict names the two compared classes in order. -/
theorem checkPatternConflict_classes {a b : Str} {conf : ClassConflict}
    (h : checkPatternConflict a b = some conf) : conf.classes = [a, b] := by
  unfold checkPatternConflict at h
  rcases (Option.orElse_eq_some _ _ _).mp h with h1 | ⟨_, h1⟩
  · exact checkSpacingConflict_classes h1
  rcases (Option.orElse_eq_some _ _ _).mp h1 with h2 | ⟨_, h2⟩
  · exact checkSizingConflict_classes h2
  rcases (Option.orElse_eq_some _ _ _).mp h2 with h3 | ⟨_, h3⟩
  · exact checkTypographyConflict_classes h3
  rcases (Option.orElse_eq_some _ _ _).mp h3 with h4 | ⟨_, h4⟩
  · exact checkColorConflict_classes h4
  · exact checkLayoutConflict_classes h4

/-- The file-path argument plays no part in the sync detector. -/
theorem detect_fp_irrel (input fp fp' : Str) :
    detectConflictsSync input fp = detectConflictsSync input fp' := rfl

/-- Two tokens parsing to the same spacing type and direction trip the
spacing rule, the first rule of the precedence chain. -/
theorem checkPatternConflict_of_spacing {a b : Str} {t : Char} {d : Option Char}
    (h1 : spacingParse a = some (t, d)) (h2 : spacingParse b = some (t, d)) :
    checkPatternConflict a b = some
      { classes := [a, b]
        reason := lit "Conflicting " ++
          (if t == 'm' then lit "margin" else lit "padding") ++
          lit " values for same direction"
        fixable := true
        suggestedFix := some (keepOnlyFix a b) } := by
  have hs : checkSpacingConflict a b = some
      { classes := [a, b]
        reason := lit "Conflicting " ++
          (if t == 'm' then lit "margin" else lit "padding") ++
          lit " values for same direction"
        fixable := true
        suggestedFix := some (keepOnlyFix a b) } := by
    unfold checkSpacingConflict
    rw [h1, h2]
    simp
  unfold checkPatternConflict
  rw [hs]
  rfl

/-! ## Claim theorems -/

/-- C1: detection on the fragment `mt-4 mt-6` returns, for any source path,
exactly one conflict naming both classes, fixable and carrying a suggested
fix; and in general two extracted tokens matching the spacing pattern with
the same margin/padding letter and the same (possibly absent) direction
letter, with no differing responsive markers, always contribute a fixable
spacing conflict naming the pair. -/
theorem C1_spacing_pair_conflict :
    (∀ fp : Str, detectConflictsSync (lit "mt-4 mt-6") fp =
      [{ classes := [lit "mt-4", lit "mt-6"]
         reason := lit "Conflicting margin values for same direction"
         fixable := true
         suggestedFix := some (lit "Keep only one: mt-4 or mt-6") }]) ∧
    (∀ (input fp c1 c2 : Str) (t : Char) (d : Option Char),
      c1 ∈ extractClasses input → c2 ∈ extractClasses input → c1 ≠ c2 →
      spacingParse c1 = some (t, d) → spacingParse c2 = some (t, d) →
      respPfx c1 = respPfx c2 →
      ∃ conf ∈ detectConflictsSync input fp,
        (conf.classes = [c1, c2] ∨ conf.classes = [c2, c1]) ∧
        conf.fixable = true ∧ conf.suggestedFix.isSome = true) := by
  constructor
  · intro fp
    rw [detect_fp_irrel _ fp (lit "x")]
    decide
  · intro input fp c1 c2 t d h1 h2 hne hp1 hp2 hpfx
    have hrv12 : areResponsiveVariants c1 c2 = false := by
      unfold areResponsiveVariants
      simp [hpfx]
    have hrv21 : areResponsiveVariants c2 c1 = false := by
      unfold areResponsiveVariants
      simp [hpfx]
    rcases pairsAfter_mem _ c1 c2 hne h1 h2 with hp | hp
    · exact ⟨_, detect_intro hp hrv12 (checkPatternConflict_of_spacing hp1 hp2),
        Or.inl rfl, rfl, rfl⟩
    · exact ⟨_, detect_intro hp hrv21 (checkPatternConflict_of_spacing hp2 hp1),
        Or.inr rfl, rfl, rfl⟩

/-- C1 witness: the general spacing rule applied to the concrete fragment
`mt-4 mt-6`. -/
theorem C1_spacing_pair_conflict_witness :
    ∃ conf ∈ detectConflictsSync (lit "mt-4 mt-6") (lit "app.html"),
      (conf.classes = [lit "mt-4", lit "mt-6"] ∨
        conf.classes = [lit "mt-6", lit "mt-4"]) ∧
      conf.fixable = true ∧ conf.suggestedFix.isSome = true :=
  C1_spacing_pair_conflict.2 (lit "mt-4 mt-6") (lit "app.html")
    (lit "mt-4") (lit "mt-6") 'm' (some 't')
    (by decide) (by decide) (by decide) (by decide) (by decide) (by decide)

/-- C2: detection on `mt-4 md:mt-6` returns the empty list, and in general
a pair of tokens whose marker-stripped bases share a non-null property type
while their responsive markers differ is exempt from every rule: no
reported conflict ever names that pair (in either order). -/
theorem C2_variant_sibling_exemption :
    (∀ fp : Str, detectConflictsSync (lit "mt-4 md:mt-6") fp = []) ∧
    (∀ (input fp c1 c2 : Str),
      propType (stripRespPfx c1) = propType (stripRespPfx c2) →
      (propType (stripRespPfx c1)).isSome = true →
      respPfx c1 ≠ respPfx c2 →
      ∀ conf ∈ detectConflictsSync input fp,
        conf.classes ≠ [c1, c2] ∧ conf.classes ≠ [c2, c1]) := by
  constructor
  · intro fp
    rw [detect_fp_irrel _ fp (lit "x")]
    decide
  · intro input fp c1 c2 hprop hsome hpfx conf hconf
    have hrv12 : areResponsiveVariants c1 c2 = true := by
      unfold areResponsiveVariants
      rw [hprop] at hsome ⊢
      simp [hsome, bne_iff_ne, hpfx]
    have hrv21 : areResponsiveVariants c2 c1 = true := by
      unfold areResponsiveVariants
      simp only [← hprop]
      simp [hsome, bne_iff_ne, Ne.symm hpfx]
    rcases detect_elim hconf with ⟨a, b, _, hrv, hcheck⟩
    have hcls := checkPatternConflict_classes hcheck
    constructor
    · intro hEq
      rw [hcls] at hEq
      obtain ⟨ha, hb⟩ : a = c1 ∧ b = c2 := by simpa using hEq
      subst ha; subst hb
      rw [hrv12] at hrv
      cases hrv
    · intro hEq
      rw [hcls] at hEq
      obtain ⟨ha, hb⟩ : a = c2 ∧ b = c1 := by simpa using hEq
      subst ha; subst hb
      rw [hrv21] at hrv
      cases hrv

/-- C2 witness: the exemption applied to a fragment that does report a
(width) conflict: the reported pair is never the variant-sibling pair. -/
theorem C2_variant_sibling_exemption_witness :
    ∀ conf ∈ detectConflictsSync (lit "w-2 w-4 mt-4 md:mt-6") (lit "app.html"),
      conf.classes ≠ [lit "mt-4", lit "md:mt-6"] ∧
      conf.classes ≠ [lit "md:mt-6", lit "mt-4"] :=
  C2_variant_sibling_exemption.2 (lit "w-2 w-4 mt-4 md:mt-6") (lit "app.html")
    (lit "mt-4") (lit "md:mt-6") (by decide) (by decide) (by decide)

/-- C10: detection on the duplicated fragment `mt-4 mt-4` reports nothing
(extraction de-duplicates), and every conflict any detection run reports
names exactly two distinct class strings. -/
theorem C10_conflict_pair_invariant :
    (∀ fp : Str, detectConflictsSync (lit "mt-4 mt-4") fp = []) ∧
    (∀ (input fp : Str), ∀ conf ∈ detectConflictsSync input fp,
      ∃ c1 c2, conf.classes = [c1, c2] ∧ c1 ≠ c2) := by
  constructor
  · intro fp
    rw [detect_fp_irrel _ fp (lit "x")]
    decide
  · intro input fp conf hconf
    rcases detect_elim hconf with ⟨a, b, hpair, _, hcheck⟩
    refine ⟨a, b, checkPatternConflict_classes hcheck, ?_⟩
    exact pairsAfter_fst_ne_snd _ (extractClasses_nodup input) (a, b) hpair

/-- All named text-color tokens of the color regex, enumerated. -/
def colorTokens : List Str :=
  colorNames.flatMap fun n => shadeNames.map fun sh => lit ("text-" ++ n ++ "-" ++ sh)

/-- Facts shared by every named text-color token: no other rule's predicate
accepts it. -/
theorem colorTokens_facts_all :
    ∀ s ∈ colorTokens, spacingParse s = none ∧ sizingTest s = false ∧
      isSizeTok s = false ∧ startsWithS s "font-" = false ∧
      startsWithS s "leading-" = false ∧ startsWithS s "tracking-" = false ∧
      startsWithS s "bg-" = false ∧ startsWithS s "border-" = false ∧
      s ∉ displayClasses ∧ s ∉ positionClasses := by decide

/-- Facts shared by every font-size token: no other rule's predicate
accepts it. -/
theorem sizeTokens_facts_all :
    ∀ s ∈ sizeSuffixes.map (fun t => lit ("text-" ++ t)),
      spacingParse s = none ∧ sizingTest s = false ∧
      isColorTok s = false ∧ startsWithS s "font-" = false ∧
      startsWithS s "leading-" = false ∧ startsWithS s "tracking-" = false ∧
      startsWithS s "bg-" = false ∧ startsWithS s "border-" = false ∧
      s ∉ displayClasses ∧ s ∉ positionClasses := by decide

/-- A font-size token is one of the thirteen enumerated strings. -/
theorem sizeTok_mem {s : Str} (h : isSizeTok s = true) :
    s ∈ sizeSuffixes.map (fun t => lit ("text-" ++ t)) := by
  unfold isSizeTok at h
  rw [List.any_eq_true] at h
  rcases h with ⟨t, ht, hbeq⟩
  rw [eq_of_beq hbeq]
  exact List.mem_map.mpr ⟨t, ht, rfl⟩

/-- A token matching the palette half of the color regex is an enumerated
color token. -/
theorem palette_mem_colorTokens {s : Str}
    (h : (colorNames.any fun n =>
      shadeNames.any fun sh => s == lit ("text-" ++ n ++ "-" ++ sh)) = true) :
    s ∈ colorTokens := by
  rw [List.any_eq_true] at h
  rcases h with ⟨n, hn, h⟩
  rw [List.any_eq_true] at h
  rcases h with ⟨sh, hsh, hbeq⟩
  rw [eq_of_beq hbeq]
  exact List.mem_flatMap.mpr ⟨n, hn, List.mem_map.mpr ⟨sh, hsh, rfl⟩⟩

/-- A string cannot have a suffix whose final character differs from its
own. -/
theorem isSuffixOf_false_of_getLast (s t : Str) (c c' : Char)
    (hs : s.getLast? = some c) (ht : t.getLast? = some c') (hne : c ≠ c') :
    t.isSuffixOf s = false := by
  by_contra hcon
  have h' : t.isSuffixOf s = true := by
    revert hcon; cases t.isSuffixOf s <;> simp
  rcases List.isSuffixOf_iff_suffix.mp h' with ⟨u, rfl⟩
  have htne : t ≠ [] := by rintro rfl; simp at ht
  rw [List.getLast?_append_of_ne_nil u htne, ht] at hs
  exact hne (Option.some.inj hs).symm

/-- A token is not in a class list when its first character matches no list
member's. -/
theorem not_mem_of_head {s : Str} {c : Char} (hs : s.head? = some c)
    {l : List Str} (hl : ∀ x ∈ l, x.head? ≠ some c) : s ∉ l :=
  fun hm => hl s hm hs

/-- Structure of an arbitrary-value text color: the fixed `text-[` head and
a final `]`. -/
theorem isArbTextColor_shape {s : Str} (h : isArbTextColor s = true) :
    (∃ r, s = 't' :: 'e' :: 'x' :: 't' :: '-' :: '[' :: r) ∧
      s.getLast? = some ']' := by
  unfold isArbTextColor at h
  simp only [Bool.and_eq_true] at h
  obtain ⟨h1, hne, heq⟩ := h
  unfold startsWithS at h1
  obtain ⟨u, hu⟩ := List.isPrefixOf_iff_prefix.mp h1
  constructor
  · exact ⟨u, by rw [← hu]; rfl⟩
  · subst hu
    have hd : List.drop 6 ("text-[".toList ++ u) = u := rfl
    rw [hd] at heq
    obtain ⟨w, hw⟩ : ∃ w, u = w ++ [']'] := by
      refine ⟨u.take (u.takeWhile (fun c => c != ']')).length, ?_⟩
      conv_lhs => rw [← List.take_append_drop
        (u.takeWhile (fun c => c != ']')).length u]
      rw [eq_of_beq heq]
    rw [hw, ← List.append_assoc]
    exact List.getLast?_concat _

/-- Facts shared by every arbitrary-value text color: no other rule's
predicate accepts it. -/
theorem arbColor_facts {s : Str} (h : isArbTextColor s = true) :
    spacingParse s = none ∧ sizingTest s = false ∧ isSizeTok s = false ∧
    startsWithS s "font-" = false ∧ startsWithS s "leading-" = false ∧
    startsWithS s "tracking-" = false ∧ startsWithS s "bg-" = false ∧
    startsWithS s "border-" = false ∧ s ∉ displayClasses ∧
    s ∉ positionClasses := by
  obtain ⟨⟨r, rfl⟩, hlast⟩ := isArbTextColor_shape h
  refine ⟨rfl, ?_, rfl, rfl, rfl, rfl, rfl, rfl, ?_, ?_⟩
  · unfold sizingTest
    rw [Bool.or_eq_false_iff]
    refine ⟨rfl, ?_⟩
    rw [List.any_eq_false]
    intro x hx
    fin_cases hx
    · exact ne_true_of_eq_false
        (isSuffixOf_false_of_getLast _ _ ']' 'o' hlast (by decide) (by decide))
    · exact ne_true_of_eq_false
        (isSuffixOf_false_of_getLast _ _ ']' 'l' hlast (by decide) (by decide))
    · exact ne_true_of_eq_false
        (isSuffixOf_false_of_getLast _ _ ']' 'n' hlast (by decide) (by decide))
    · exact ne_true_of_eq_false
        (isSuffixOf_false_of_getLast _ _ ']' 'o' hlast (by decide) (by decide))
    · exact ne_true_of_eq_false
        (isSuffixOf_false_of_getLast _ _ ']' 'l' hlast (by decide) (by decide))
    · exact ne_true_of_eq_false
        (isSuffixOf_false_of_getLast _ _ ']' 'n' hlast (by decide) (by decide))
  · exact not_mem_of_head (s := 't' :: 'e' :: 'x' :: 't' :: '-' :: '[' :: r)
      (c := 't') rfl (by decide)
  · exact not_mem_of_head (s := 't' :: 'e' :: 'x' :: 't' :: '-' :: '[' :: r)
      (c := 't') rfl (by decide)

/-- Facts shared by every text-color token, named or arbitrary. -/
theorem colorTok_facts {s : Str} (h : isColorTok s = true) :
    spacingParse s = none ∧ sizingTest s = false ∧ isSizeTok s = false ∧
    startsWithS s "font-" = false ∧ startsWithS s "leading-" = false ∧
    startsWithS s "tracking-" = false ∧ startsWithS s "bg-" = false ∧
    startsWithS s "border-" = false ∧ s ∉ displayClasses ∧
    s ∉ positionClasses := by
  unfold isColorTok at h
  rw [Bool.or_eq_true] at h
  rcases h with h | h
  · exact colorTokens_facts_all s (palette_mem_colorTokens h)
  · exact arbColor_facts h

/-- A rule chain evaluates to no conflict when the left token defeats every
left-hand predicate and the two shared both-sides predicates fail. -/
theorem checkPatternConflict_none_of {a b : Str}
    (h1 : spacingParse a = none) (h2 : sizingTest a = false)
    (h3 : isSizeTok a = false ∨ isSizeTok b = false)
    (h4 : startsWithS a "font-" = false)
    (h5 : startsWithS a "leading-" = false)
    (h6 : startsWithS a "tracking-" = false)
    (h7 : isColorTok a = false ∨ isColorTok b = false)
    (h8 : startsWithS a "bg-" = false) (h9 : startsWithS a "border-" = false)
    (h10 : a ∉ displayClasses) (h11 : a ∉ positionClasses) :
    checkPatternConflict a b = none := by
  have hs : checkSpacingConflict a b = none := by
    unfold checkSpacingConflict
    rw [h1]
  have hz : checkSizingConflict a b = none := by
    unfold checkSizingConflict
    rw [h2]
    rfl
  have ht : checkTypographyConflict a b = none := by
    rcases h3 with h | h
    · simp [checkTypographyConflict, h, h4, h5, h6]
    · simp [checkTypographyConflict, h, h4, h5, h6]
  have hc : checkColorConflict a b = none := by
    rcases h7 with h | h
    · simp [checkColorConflict, h, h8, h9]
    · simp [checkColorConflict, h, h8, h9]
  have hl : checkLayoutConflict a b = none := by
    simp [checkLayoutConflict, h10, h11]
  unfold checkPatternConflict
  rw [hs, hz, ht, hc, hl]
  rfl

/-- C3: detection on `text-sm text-sky-400` and on `text-sm text-[red]`
returns empty lists for any source path; in general a font-size token and a
text-color token (named or arbitrary) never trip any rule, in either
comparison order, because the font-size rule needs both tokens to be sizes
and the color rule needs both to be colors. -/
theorem C3_size_vs_color_exempt :
    (∀ fp : Str, detectConflictsSync (lit "text-sm text-sky-400") fp = []) ∧
    (∀ fp : Str, detectConflictsSync (lit "text-sm text-[red]") fp = []) ∧
    (∀ c1 c2 : Str, isSizeTok c1 = true → isColorTok c2 = true →
      checkPatternConflict c1 c2 = none ∧ checkPatternConflict c2 c1 = none) := by
  refine ⟨fun fp => ?_, fun fp => ?_, fun c1 c2 hsz hco => ?_⟩
  · rw [detect_fp_irrel _ fp (lit "x")]; decide
  · rw [detect_fp_irrel _ fp (lit "x")]; decide
  · obtain ⟨s1, s2, s3, s4, s5, s6, s7, s8, s9, s10⟩ :=
      sizeTokens_facts_all c1 (sizeTok_mem hsz)
    obtain ⟨k1, k2, k3, k4, k5, k6, k7, k8, k9, k10⟩ := colorTok_facts hco
    exact ⟨checkPatternConflict_none_of s1 s2 (Or.inr k3) s4 s5 s6
        (Or.inl s3) s7 s8 s9 s10,
      checkPatternConflict_none_of k1 k2 (Or.inl k3) k4 k5 k6
        (Or.inr s3) k7 k8 k9 k10⟩

/-- C3 witness: the general size-versus-color exemption applied to the
tokens `text-lg` and `text-red-500`. -/
theorem C3_size_vs_color_exempt_witness :
    checkPatternConflict (lit "text-lg") (lit "text-red-500") = none ∧
    checkPatternConflict (lit "text-red-500") (lit "text-lg") = none :=
  C3_size_vs_color_exempt.2.2 (lit "text-lg") (lit "text-red-500")
    (by decide) (by decide)

/-- C4: applying the auto-fixer to the conflict detected in `mt-4 mt-6`
rewrites the fragment to the descriptive suggestion text, and re-running
detection on that fixed fragment reports the very same `mt-4`/`mt-6` pair
again — the fix is not idempotent with respect to detection. (The guard in
fixConflict looks for `Choose one:` while the detector emits
`Keep only one:`, so the descriptive text is inserted verbatim.) -/
theorem C4_fix_not_detection_idempotent :
    detectConflictsSync (lit "mt-4 mt-6") (lit "test.html") =
      [{ classes := [lit "mt-4", lit "mt-6"]
         reason := lit "Conflicting margin values for same direction"
         fixable := true
         suggestedFix := some (lit "Keep only one: mt-4 or mt-6") }] ∧
    fixConflict (lit "mt-4 mt-6")
      { classes := [lit "mt-4", lit "mt-6"]
        reason := lit "Conflicting margin values for same direction"
        fixable := true
        suggestedFix := some (lit "Keep only one: mt-4 or mt-6") } =
      some (lit "Keep only one: mt-4 or mt-6") ∧
    detectConflictsSync (lit "Keep only one: mt-4 or mt-6") (lit "test.html") =
      [{ classes := [lit "mt-4", lit "mt-6"]
         reason := lit "Conflicting margin values for same direction"
         fixable := true
         suggestedFix := some (lit "Keep only one: mt-4 or mt-6") }] := by
  refine ⟨by decide, by decide, by decide⟩

/-- C5: the suggested fix of the `mt-4 mt-6` conflict is a descriptive
sentence containing whitespace, yet fixConflict does not refuse it: it
returns a changed fragment whose class-list content is that multi-word
sentence, instead of the no-op the specification requires. -/
theorem C5_multiword_fix_not_refused :
    (lit "Keep only one: mt-4 or mt-6").any jsWs = true ∧
    fixConflict (lit "mt-4 mt-6")
      { classes := [lit "mt-4", lit "mt-6"]
        reason := lit "Conflicting margin values for same direction"
        fixable := true
        suggestedFix := some (lit "Keep only one: mt-4 or mt-6") } =
      some (lit "Keep only one: mt-4 or mt-6") ∧
    lit "Keep only one: mt-4 or mt-6" ≠ lit "mt-4 mt-6" := by
  refine ⟨by decide, by decide, by decide⟩

/-- C7: with no class attribute in the fragment, fallback extraction keeps
only cleaned tokens that satisfy the token grammar, and drops everything
else: when every whitespace token of the fragment fails the grammar, the
extraction result is empty. -/
theorem C7_fallback_drops_prose :
    (∀ input : Str, attrContents input = [] →
      ∀ c ∈ extractClassesFromInput input, fallbackTest c = true) ∧
    (∀ input : Str, attrContents input = [] →
      (∀ tok ∈ splitWsF input, fallbackTest (cleanTok tok) = false) →
      extractClassesFromInput input = []) := by
  constructor
  · intro input hattr c hc
    unfold extractClassesFromInput at hc
    rw [hattr] at hc
    simp only [List.flatMap_nil, List.isEmpty_nil, if_true] at hc
    rcases List.mem_filterMap.mp hc with ⟨tok, _, heq⟩
    by_cases hft : fallbackTest (cleanTok tok) = true
    · rw [if_pos hft] at heq
      rw [← Option.some.inj heq]
      exact hft
    · rw [if_neg hft] at heq
      cases heq
  · intro input hattr hall
    unfold extractClassesFromInput
    rw [hattr]
    simp only [List.flatMap_nil, List.isEmpty_nil, if_true]
    rw [List.filterMap_eq_nil_iff]
    intro tok htok
    rw [hall tok htok]
    rfl

/-- C7 witness: extraction dropping a sentence of plain prose. -/
theorem C7_fallback_drops_prose_witness :
    (∀ c ∈ extractClassesFromInput
        (lit "the quick brown fox jumps over the lazy dog"),
      fallbackTest c = true) ∧
    extractClassesFromInput (lit "the quick brown fox jumps over the lazy dog") =
      [] :=
  ⟨C7_fallback_drops_prose.1 _ (by decide),
   C7_fallback_drops_prose.2 _ (by decide) (by decide)⟩

/-- C9: when no diagnostics push for the opened URI arrives inside the
1200 ms window, the subscription resolves with the empty list and the
listener registered for the URI is removed afterwards. -/
theorem C9_timeout_resolves_empty :
    ∀ (α : Type) (listeners : List Str) (uri : Str)
      (arrival : Option (Nat × List α)),
      (∀ t d, arrival = some (t, d) → timeoutMs ≤ t) →
      (getCanonicalDiagnosticsModel listeners uri arrival).1 = [] ∧
      uri ∉ (getCanonicalDiagnosticsModel listeners uri arrival).2 := by
  intro α listeners uri arrival harr
  constructor
  · unfold getCanonicalDiagnosticsModel subscriptionOutcome
    rcases arrival with _ | ⟨t, d⟩
    · rfl
    · have ht := harr t d rfl
      simp only [timeoutMs] at ht ⊢
      rw [if_neg (by omega)]
  · unfold getCanonicalDiagnosticsModel mapDeleteKey
    intro hmem
    have := (List.mem_filter.mp hmem).2
    simp at this

/-- C9 witness: the model with no push at all for the opened URI. -/
theorem C9_timeout_resolves_empty_witness :
    (getCanonicalDiagnosticsModel (α := Nat) [lit "file:///a.css"]
      (lit "file:///doc.html") none).1 = [] ∧
    lit "file:///doc.html" ∉
      (getCanonicalDiagnosticsModel (α := Nat) [lit "file:///a.css"]
        (lit "file:///doc.html") none).2 :=
  C9_timeout_resolves_empty Nat [lit "file:///a.css"] (lit "file:///doc.html")
    none (fun _ _ h => nomatch h)

/-- Rational value of an exact subtraction. -/
theorem fVal_sub {a b : Frac} (ha : 0 < a.den) (hb : 0 < b.den) :
    fVal (fSub a b) = fVal a - fVal b := by
  unfold fVal fSub
  have ha' : ((a.den : ℚ)) ≠ 0 := ne_of_gt (by exact_mod_cast ha)
  have hb' : ((b.den : ℚ)) ≠ 0 := ne_of_gt (by exact_mod_cast hb)
  push_cast
  field_simp
  ring

/-- Rational value of the absolute value. -/
theorem fVal_abs (a : Frac) : fVal (fAbs a) = |fVal a| := by
  unfold fVal fAbs
  rw [abs_div]
  congr 1
  · push_cast
    rfl
  · exact (abs_of_nonneg (by positivity)).symm

/-- The cross-multiplication comparison agrees with the rational order when
both denominators are positive. -/
theorem fLt_iff {a b : Frac} (ha : 0 < a.den) (hb : 0 < b.den) :
    fLt a b = true ↔ fVal a < fVal b := by
  unfold fLt fVal
  rw [decide_eq_true_iff]
  rw [div_lt_div_iff₀ (by exact_mod_cast ha) (by exact_mod_cast hb)]
  constructor <;> intro h <;> exact_mod_cast h

/-- One step of the closest-value loop. -/
def nearStep (x best v : Frac) : Frac :=
  if fLt (fAbs (fSub x v)) (fAbs (fSub x best)) then v else best

/-- The closest-value loop returns the accumulator or a list member, keeps
a positive denominator, never increases the distance to the accumulator,
and ends at distance at most that of every list member. -/
theorem foldl_nearStep_spec (x : Frac) (hx : 0 < x.den) :
    ∀ (l : List Frac) (acc : Frac), (∀ v ∈ l, 0 < v.den) → 0 < acc.den →
      (l.foldl (nearStep x) acc = acc ∨ l.foldl (nearStep x) acc ∈ l) ∧
      0 < (l.foldl (nearStep x) acc).den ∧
      |fVal x - fVal (l.foldl (nearStep x) acc)| ≤ |fVal x - fVal acc| ∧
      ∀ v ∈ l, |fVal x - fVal (l.foldl (nearStep x) acc)| ≤ |fVal x - fVal v| := by
  intro l
  induction l with
  | nil =>
    intro acc _ hacc
    simp only [List.foldl_nil]
    refine ⟨?_, hacc, le_refl _, ?_⟩
    · simp
    · intro v hv
      simp at hv
  | cons v t ih =>
    intro acc hl hacc
    have hv : 0 < v.den := hl v (List.mem_cons_self v t)
    have hsubden : ∀ b : Frac, 0 < b.den → 0 < (fAbs (fSub x b)).den := by
      intro b hb
      unfold fAbs fSub
      exact Nat.mul_pos hx hb
    have hstep_den : 0 < (nearStep x acc v).den := by
      unfold nearStep; split <;> assumption
    have hstep_le :
        |fVal x - fVal (nearStep x acc v)| ≤ |fVal x - fVal acc| ∧
        |fVal x - fVal (nearStep x acc v)| ≤ |fVal x - fVal v| := by
      unfold nearStep
      by_cases hc : fLt (fAbs (fSub x v)) (fAbs (fSub x acc)) = true
      · rw [if_pos hc]
        have hlt := (fLt_iff (hsubden v hv) (hsubden acc hacc)).mp hc
        rw [fVal_abs, fVal_abs, fVal_sub hx hv, fVal_sub hx hacc] at hlt
        exact ⟨le_of_lt hlt, le_refl _⟩
      · rw [if_neg hc]
        have hge : ¬ fVal (fAbs (fSub x v)) < fVal (fAbs (fSub x acc)) :=
          fun hlt => hc ((fLt_iff (hsubden v hv) (hsubden acc hacc)).mpr hlt)
        rw [fVal_abs, fVal_abs, fVal_sub hx hv, fVal_sub hx hacc] at hge
        exact ⟨le_refl _, le_of_not_lt hge⟩
    simp only [List.foldl_cons]
    obtain ⟨hmem, hden, hle, hall⟩ :=
      ih (nearStep x acc v) (fun w hw => hl w (List.mem_cons_of_mem _ hw)) hstep_den
    refine ⟨?_, hden, le_trans hle hstep_le.1, ?_⟩
    · rcases hmem with h | h
      · by_cases hc : fLt (fAbs (fSub x v)) (fAbs (fSub x acc)) = true
        · have hv' : nearStep x acc v = v := by unfold nearStep; rw [if_pos hc]
          rw [h, hv']
          exact Or.inr (List.mem_cons_self v t)
        · have ha' : nearStep x acc v = acc := by unfold nearStep; rw [if_neg hc]
          rw [h, ha']
          exact Or.inl rfl
      · exact Or.inr (List.mem_cons_of_mem _ h)
    · intro w hw
      rcases List.mem_cons.mp hw with rfl | hw'
      · exact le_trans hle hstep_le.2
      · exact hall w hw'

/-- The closest-value loop picks a list member at minimal distance. -/
theorem jsNearest_spec (x : Frac) (hx : 0 < x.den) (vals : List Frac)
    (hvals : ∀ v ∈ vals, 0 < v.den) (hne : vals ≠ []) :
    jsNearest vals x ∈ vals ∧
      ∀ v ∈ vals, |fVal x - fVal (jsNearest vals x)| ≤ |fVal x - fVal v| := by
  match vals, hne with
  | v0 :: rest, _ =>
    have h := foldl_nearStep_spec x hx (v0 :: rest) v0 hvals
      (hvals v0 (List.mem_cons_self v0 rest))
    have hj : jsNearest (v0 :: rest) x = (v0 :: rest).foldl (nearStep x) v0 := rfl
    rw [hj]
    refine ⟨?_, h.2.2.2⟩
    rcases h.1 with he | hm
    · rw [he]; exact List.mem_cons_self v0 rest
    · exact hm

/-- C6: the canonical suggester turns `mt-[2px]` into `mt-0.5` and
`mt-[-20px]` into `-mt-5` (extraction keeps the bracket token and the
px rule fires); and the px-to-scale conversion always snaps the pixel value
divided by four to a nearest entry of the fixed allowed list. -/
theorem C6_px_bracket_to_scale :
    extractClassesFromInput (lit "mt-[2px]") = [lit "mt-[2px]"] ∧
    getPatternBasedSuggestion (lit "mt-[2px]") =
      some { original := lit "mt-[2px]", canonical := lit "mt-0.5"
             reason := lit "Use scale token instead of arbitrary px value" } ∧
    extractClassesFromInput (lit "mt-[-20px]") = [lit "mt-[-20px]"] ∧
    getPatternBasedSuggestion (lit "mt-[-20px]") =
      some { original := lit "mt-[-20px]", canonical := lit "-mt-5"
             reason := lit "Use scale token instead of arbitrary px value" } ∧
    ∀ n : Nat, jsNearest pxAllowed (fq n 4) ∈ pxAllowed ∧
      ∀ v ∈ pxAllowed,
        |(n : ℚ) / 4 - fVal (jsNearest pxAllowed (fq n 4))| ≤
          |(n : ℚ) / 4 - fVal v| := by
  refine ⟨by decide, by decide, by decide, by decide, fun n => ?_⟩
  have hx : 0 < (fq n 4).den := by show (0 : ℕ) < 4; norm_num
  have hspec := jsNearest_spec (fq n 4) hx pxAllowed (by decide) (by decide)
  have hval : fVal (fq n 4) = (n : ℚ) / 4 := by
    unfold fVal fq
    push_cast
    rfl
  refine ⟨hspec.1, fun v hv => ?_⟩
  rw [← hval]
  exact hspec.2 v hv

/-- Zero fuel or an empty buffer drains to nothing. -/
theorem drainF_nil : ∀ f, drainF f ([] : Str) = ([], []) := by
  intro f
  cases f <;> rfl

/-- A found terminator leaves at least its four bytes in the buffer. -/
theorem findTerm_bound : ∀ (buf : Str) (h : Nat),
    findTerm buf = some h → h + 4 ≤ buf.length := by
  intro buf
  induction buf with
  | nil => intro h hh; simp [findTerm] at hh
  | cons c rest ih =>
    intro h hh
    unfold findTerm at hh
    by_cases hp : crlf2.isPrefixOf (c :: rest) = true
    · rw [if_pos hp] at hh
      obtain rfl : (0 : Nat) = h := Option.some.inj hh
      have hl4 := (List.isPrefixOf_iff_prefix.mp hp).length_le
      have hc4 : crlf2.length = 4 := rfl
      rw [hc4] at hl4
      omega
    · rw [if_neg hp] at hh
      rcases Option.map_eq_some'.mp hh with ⟨h', hh', rfl⟩
      have := ih h' hh'
      simp only [List.length_cons]
      omega

/-- Whether the four terminator bytes sit at the front is unchanged by
appending, once the buffer holds at least four bytes. -/
theorem isPrefixOf_crlf2_append {s : Str} (t : Str) (hlen : 4 ≤ s.length) :
    crlf2.isPrefixOf (s ++ t) = crlf2.isPrefixOf s := by
  rw [Bool.eq_iff_iff, List.isPrefixOf_iff_prefix, List.isPrefixOf_iff_prefix]
  constructor
  · intro h
    have h4 : crlf2 = (s ++ t).take 4 := by
      have := List.prefix_iff_eq_take.mp h
      simpa using this
    rw [List.take_append_of_le_length hlen] at h4
    rw [List.prefix_iff_eq_take]
    simpa using h4
  · intro h
    exact h.trans (List.prefix_append s t)

/-- The first terminator of a buffer that has one stays the first
terminator after more bytes arrive. -/
theorem findTerm_append : ∀ (buf t : Str) (h : Nat),
    findTerm buf = some h → findTerm (buf ++ t) = some h := by
  intro buf
  induction buf with
  | nil => intro t h hh; simp [findTerm] at hh
  | cons c rest ih =>
    intro t h hh
    unfold findTerm at hh
    show findTerm (c :: (rest ++ t)) = some h
    unfold findTerm
    by_cases hp : crlf2.isPrefixOf (c :: rest) = true
    · rw [if_pos hp] at hh
      have hp2 : crlf2.isPrefixOf (c :: (rest ++ t)) = true := by
        rw [List.isPrefixOf_iff_prefix]
        exact (List.isPrefixOf_iff_prefix.mp hp).trans
          (by simpa using List.prefix_append (c :: rest) t)
      rw [if_pos hp2]
      exact hh
    · rw [if_neg hp] at hh
      rcases Option.map_eq_some'.mp hh with ⟨h', hh', rfl⟩
      have hlen : 4 ≤ (c :: rest).length := by
        have := findTerm_bound rest h' hh'
        simp only [List.length_cons]
        omega
      have hp2 : ¬ crlf2.isPrefixOf (c :: (rest ++ t)) = true := by
        have := isPrefixOf_crlf2_append (s := c :: rest) t hlen
        simp only [List.cons_append] at this
        rw [this]
        exact hp
      rw [if_neg hp2, ih t h' hh']
      rfl

/-- The drain loop's result does not depend on the fuel, once the fuel
covers the buffer length. -/
theorem drainF_fuel : ∀ (k : Nat) (buf : Str), buf.length ≤ k →
    ∀ f1 f2, buf.length ≤ f1 → buf.length ≤ f2 →
      drainF f1 buf = drainF f2 buf := by
  intro k
  induction k with
  | zero =>
    intro buf hk f1 f2 _ _
    obtain rfl : buf = [] := List.eq_nil_of_length_eq_zero (Nat.le_zero.mp hk)
    rw [drainF_nil, drainF_nil]
  | succ k ih =>
    intro buf hk f1 f2 h1 h2
    rcases buf with _ | ⟨c, rest⟩
    · rw [drainF_nil, drainF_nil]
    obtain ⟨f1', rfl⟩ : ∃ f1', f1 = f1' + 1 :=
      ⟨f1 - 1, by simp only [List.length_cons] at h1; omega⟩
    obtain ⟨f2', rfl⟩ : ∃ f2', f2 = f2' + 1 :=
      ⟨f2 - 1, by simp only [List.length_cons] at h2; omega⟩
    show drainF (f1' + 1) (c :: rest) = drainF (f2' + 1) (c :: rest)
    unfold drainF
    split
    · rfl
    · rename_i h hft
      have hb := findTerm_bound _ _ hft
      simp only [List.length_cons] at hb hk h1 h2
      split
      · apply ih
        · simp only [List.length_drop, List.length_cons]; omega
        · simp only [List.length_drop, List.length_cons]; omega
        · simp only [List.length_drop, List.length_cons]; omega
      · rename_i L hcl
        split
        · rfl
        · rename_i hlt
          simp only [List.length_cons, Nat.not_lt] at hlt
          have hrec : drainF f1' ((c :: rest).drop (h + 4 + L)) =
              drainF f2' ((c :: rest).drop (h + 4 + L)) := by
            apply ih
            · simp only [List.length_drop, List.length_cons]; omega
            · simp only [List.length_drop, List.length_cons]; omega
            · simp only [List.length_drop, List.length_cons]; omega
          simp only [hrec]

/-- One-step unfolding of the drain loop, fuel-free. -/
theorem drain_eq (buf : Str) :
    drain buf =
      match findTerm buf with
      | none => ([], buf)
      | some h =>
        match findCL (buf.take h) with
        | none => drain (buf.drop (h + 4))
        | some len =>
          if buf.length < h + 4 + len then ([], buf)
          else ((buf.drop (h + 4)).take len ::
                  (drain (buf.drop (h + 4 + len))).1,
                (drain (buf.drop (h + 4 + len))).2) := by
  rcases buf with _ | ⟨c, rest⟩
  · rfl
  show drainF (rest.length + 1) (c :: rest) = _
  unfold drainF
  split
  · rfl
  · rename_i h hft
    have hb := findTerm_bound _ _ hft
    split
    · show drainF (rest.length) _ = drain _
      apply drainF_fuel ((c :: rest).drop (h + 4)).length _ le_rfl
      · simp only [List.length_drop, List.length_cons] at hb ⊢; omega
      · exact le_rfl
    · rename_i L hcl
      split
      · rfl
      · have hrec : drainF (rest.length) ((c :: rest).drop (h + 4 + L)) =
            drain ((c :: rest).drop (h + 4 + L)) := by
          apply drainF_fuel ((c :: rest).drop (h + 4 + L)).length _ le_rfl
          · simp only [List.length_drop, List.length_cons] at hb ⊢; omega
          · exact le_rfl
        simp only [hrec]

/-- Draining a longer stream equals draining a prefix and then resuming on
the residual buffer extended by the rest: the core confluence property of
the incremental parser. -/
theorem drain_append_aux : ∀ (k : Nat) (buf : Str), buf.length ≤ k →
    ∀ extra : Str,
      drain (buf ++ extra) =
        ((drain buf).1 ++ (drain ((drain buf).2 ++ extra)).1,
         (drain ((drain buf).2 ++ extra)).2) := by
  intro k
  induction k with
  | zero =>
    intro buf hk extra
    obtain rfl : buf = [] := List.eq_nil_of_length_eq_zero (Nat.le_zero.mp hk)
    rfl
  | succ k ih =>
    intro buf hk extra
    cases hft : findTerm buf with
    | none =>
      have h1 : drain buf = ([], buf) := by rw [drain_eq buf]; simp only [hft]
      rw [h1]; simp
    | some h =>
      have hb4 : h + 4 ≤ buf.length := findTerm_bound _ _ hft
      have hft2 : findTerm (buf ++ extra) = some h := findTerm_append _ _ _ hft
      have htake : (buf ++ extra).take h = buf.take h :=
        List.take_append_of_le_length (by omega)
      cases hcl : findCL (buf.take h) with
      | none =>
        have hL1 : drain buf = drain (buf.drop (h + 4)) := by
          rw [drain_eq buf]; simp only [hft, hcl]
        have hL2 : drain (buf ++ extra) = drain (buf.drop (h + 4) ++ extra) := by
          rw [drain_eq (buf ++ extra)]
          simp only [hft2, htake, hcl, List.drop_append_of_le_length hb4]
        rw [hL2, hL1]
        exact ih (buf.drop (h + 4)) (by simp only [List.length_drop]; omega) extra
      | some L =>
        by_cases hlt : buf.length < h + 4 + L
        · have h1 : drain buf = ([], buf) := by
            rw [drain_eq buf]; simp only [hft, hcl, if_pos hlt]
          rw [h1]; simp
        · have hle : h + 4 + L ≤ buf.length := Nat.le_of_not_lt hlt
          have hlt2 : ¬ (buf ++ extra).length < h + 4 + L := by
            simp only [List.length_append]; omega
          have hbody : ((buf ++ extra).drop (h + 4)).take L =
              (buf.drop (h + 4)).take L := by
            rw [List.drop_append_of_le_length (by omega)]
            exact List.take_append_of_le_length
              (by simp only [List.length_drop]; omega)
          have hrest : (buf ++ extra).drop (h + 4 + L) =
              buf.drop (h + 4 + L) ++ extra :=
            List.drop_append_of_le_length hle
          have hL2 : drain (buf ++ extra) =
              ((buf.drop (h + 4)).take L ::
                 (drain (buf.drop (h + 4 + L) ++ extra)).1,
               (drain (buf.drop (h + 4 + L) ++ extra)).2) := by
            rw [drain_eq (buf ++ extra)]
            simp only [hft2, htake, hcl, if_neg hlt2, hbody, hrest]
          have hL1 : drain buf =
              ((buf.drop (h + 4)).take L :: (drain (buf.drop (h + 4 + L))).1,
               (drain (buf.drop (h + 4 + L))).2) := by
            rw [drain_eq buf]; simp only [hft, hcl, if_neg hlt]
          have IH := ih (buf.drop (h + 4 + L))
            (by simp only [List.length_drop]; omega) extra
          rw [hL2, hL1, IH]
          simp [List.cons_append]

/-- The buffer left by a drain is blocked: draining it again emits
nothing. -/
theorem drain_residual : ∀ (k : Nat) (buf : Str), buf.length ≤ k →
    drain ((drain buf).2) = ([], (drain buf).2) := by
  intro k
  induction k with
  | zero =>
    intro buf hk
    obtain rfl : buf = [] := List.eq_nil_of_length_eq_zero (Nat.le_zero.mp hk)
    rfl
  | succ k ih =>
    intro buf hk
    cases hft : findTerm buf with
    | none =>
      have h1 : drain buf = ([], buf) := by rw [drain_eq buf]; simp only [hft]
      rw [h1]
      exact h1
    | some h =>
      have hb4 : h + 4 ≤ buf.length := findTerm_bound _ _ hft
      cases hcl : findCL (buf.take h) with
      | none =>
        have h1 : drain buf = drain (buf.drop (h + 4)) := by
          rw [drain_eq buf]; simp only [hft, hcl]
        rw [h1]
        exact ih (buf.drop (h + 4)) (by simp only [List.length_drop]; omega)
      | some L =>
        by_cases hlt : buf.length < h + 4 + L
        · have h1 : drain buf = ([], buf) := by
            rw [drain_eq buf]; simp only [hft, hcl, if_pos hlt]
          rw [h1]
          exact h1
        · have h1 : drain buf =
              ((buf.drop (h + 4)).take L :: (drain (buf.drop (h + 4 + L))).1,
               (drain (buf.drop (h + 4 + L))).2) := by
            rw [drain_eq buf]; simp only [hft, hcl, if_neg hlt]
          rw [h1]
          exact ih (buf.drop (h + 4 + L))
            (by simp only [List.length_drop]; omega)

/-- Feeding chunks one by one from a blocked buffer equals draining the
whole concatenation at once. -/
theorem processChunks_drain : ∀ (chunks : List Str) (buf : Str),
    drain buf = ([], buf) →
    processChunks buf chunks = drain (buf ++ chunks.flatten) := by
  intro chunks
  induction chunks with
  | nil =>
    intro buf hb
    show ([], buf) = _
    rw [List.flatten_nil, List.append_nil, hb]
  | cons c cs ih =>
    intro buf hb
    rcases hdb : drain (buf ++ c) with ⟨ms, b⟩
    have hblocked : drain b = ([], b) := by
      have := drain_residual (buf ++ c).length (buf ++ c) le_rfl
      rw [hdb] at this
      exact this
    have hih := ih b hblocked
    have happ := drain_append_aux (buf ++ c).length (buf ++ c) le_rfl cs.flatten
    rw [hdb] at happ
    calc processChunks buf (c :: cs)
        = (ms ++ (processChunks b cs).1, (processChunks b cs).2) := by
          simp only [processChunks, hdb]
      _ = (ms ++ (drain (b ++ cs.flatten)).1, (drain (b ++ cs.flatten)).2) := by
          rw [hih]
      _ = drain (buf ++ (c :: cs).flatten) := by
          rw [List.flatten_cons, ← List.append_assoc, happ]

/-- C8: feeding a byte stream to the onData handler in any chunking yields
the same parsed frame bodies and the same leftover buffer as feeding it in
one piece; and a header without a parseable Content-Length is discarded up
to its terminator while parsing continues. -/
theorem C8_framing_chunk_invariant :
    (∀ chunks : List Str, processChunks [] chunks = drain chunks.flatten) ∧
    drain (lit "X-Head: 1\r\n\r\nContent-Length: 2\r\n\r\nhi") =
      ([lit "hi"], []) := by
  constructor
  · intro chunks
    have := processChunks_drain chunks [] rfl
    simpa using this
  · decide

/-- C8 witness: a three-way split of a single frame, with the header cut
inside the terminator, reassembles to the one-shot parse. -/
theorem C8_framing_chunk_invariant_witness :
    processChunks [] [lit "Content-Length:", lit " 2\r\n\r", lit "\nhi"] =
      ([lit "hi"], []) := by
  rw [C8_framing_chunk_invariant.1]
  decide

/-- C10 witness: the invariant read off the concrete `mt-4 mt-6` run. -/
theorem C10_conflict_pair_invariant_witness :
    ∃ c1 c2,
      ({ classes := [lit "mt-4", lit "mt-6"]
         reason := lit "Conflicting margin values for same direction"
         fixable := true
         suggestedFix := some (lit "Keep only one: mt-4 or mt-6") } :
        ClassConflict).classes = [c1, c2] ∧ c1 ≠ c2 :=
  C10_conflict_pair_invariant.2 (lit "mt-4 mt-6") (lit "app.html") _ (by decide)

end Oxtw
